import Mathlib

set_option maxHeartbeats 1000000
set_option maxRecDepth 4000

/-!
Shallow embedding of the document-extraction engine of this repository
(universal tax-auction property parser, file scripts/universal_parser.py),
together with proofs about the claims of the specification.

Modelling conventions:
* Python strings are Lean `String`s (a `List Char` under the hood); the
  modelled character classes (`\d`, `\s`, `[A-Z]`, `str.upper`, `str.strip`,
  `str.isupper`) are taken over ASCII, which is the alphabet the parser's
  vocabulary and patterns are written in.
* Python `float` is modelled as exact `ℚ`.  The source only compares the
  constants 0.95 / 0.70 / 0.50 and passes parsed amounts through, so the
  binary-rounding of CPython floats is irrelevant to every claim; `float(...)`
  literals such as "inf"/"nan"/underscore separators are outside the model.
* `None` becomes `none`, a possibly-`None` table cell is an `Option String`,
  and Python truthiness of a string value `s` is `s ≠ ""`.
* The regular expressions of the source are compiled by hand into executable
  matchers; each matcher's doc comment states the regex it implements and,
  where maximal-munch is used in place of backtracking, why the two agree
  (the follow-set of every bounded repetition is disjoint from the repeated
  character class).
-/

namespace UniversalParser

/-- ASCII model of the regex class `[A-Z]` and of `str.isupper` on one char. -/
def isUpperAZ (c : Char) : Bool := 'A' ≤ c && c ≤ 'Z'

/-- ASCII lowercase letter (a cased char that is not uppercase). -/
def isLowerAZ (c : Char) : Bool := 'a' ≤ c && c ≤ 'z'

/-- ASCII model of the regex class `\d`. -/
def isDigitC (c : Char) : Bool := '0' ≤ c && c ≤ '9'

/-- ASCII model of the regex class `\s` (Python whitespace). -/
def isSpaceC (c : Char) : Bool :=
  c = ' ' || c = '\t' || c = '\n' || c = '\r' || c = '\x0b' || c = '\x0c'

/-- ASCII model of the regex class `\w` (used for `\b` word boundaries). -/
def isWordChar (c : Char) : Bool :=
  isUpperAZ c || isLowerAZ c || isDigitC c || c = '_'

/-- `leadsWith n h` : the list `n` is an initial segment of `h`. -/
def leadsWith : List Char → List Char → Bool
  | [], _ => true
  | _ :: _, [] => false
  | a :: as, b :: bs => a = b && leadsWith as bs

/-- `containsL n h` : `n` occurs as a contiguous sublist of `h`
(Python's `n in h` on strings). -/
def containsL : List Char → List Char → Bool
  | n, [] => leadsWith n []
  | n, c :: t => leadsWith n (c :: t) || containsL n t

/-- Python `needle in hay` for strings. -/
def containsS (hay needle : String) : Bool := containsL needle.data hay.data

/-- Python `str.upper` (ASCII). -/
def upperL (cs : List Char) : List Char := cs.map Char.toUpper

/-- Python `str.upper` (ASCII). -/
def upperS (s : String) : String := String.mk (upperL s.data)

/-- Python `str.strip` (ASCII whitespace). -/
def stripL (cs : List Char) : List Char :=
  ((cs.dropWhile isSpaceC).reverse.dropWhile isSpaceC).reverse

/-- Python `str.strip` (ASCII whitespace). -/
def pyStrip (s : String) : String := String.mk (stripL s.data)

/-- Python `str.isupper` on a token: no lowercase cased char and at least one
uppercase char (ASCII model). -/
def pyIsUpper (w : List Char) : Bool :=
  w.all (fun c => !isLowerAZ c) && w.any isUpperAZ

/-!
Tokenisation: the source starts `clean_spaced_text` / `clean_spaced_address`
with `re.sub(r'\s+', ' ', text).strip()` and then `.split(' ')`.  On the
normalised string this is exactly "split into the maximal whitespace-free
words"; the only divergence is that a whitespace-only input gives Python the
word list `['']` while `tokens` gives `[]` — both produce the final string
`''` (the empty word is neither a single uppercase letter nor touched by the
merge passes, and joining either list gives `''`), so the two agree as
functions on strings.
-/

/-- Split at whitespace characters, keeping empty pieces. -/
def tokenSplit : List Char → List (List Char)
  | [] => [[]]
  | c :: cs =>
    if isSpaceC c then [] :: tokenSplit cs
    else
      match tokenSplit cs with
      | w :: ws => (c :: w) :: ws
      | [] => [[c]]

/-- Split into maximal runs of non-whitespace characters, dropping empties. -/
def tokens (cs : List Char) : List (List Char) :=
  (tokenSplit cs).filter (fun w => w ≠ [])

/-- `' '.join` on words. -/
def joinSp : List (List Char) → List Char
  | [] => []
  | [w] => w
  | w :: ws => w ++ ' ' :: joinSp ws

/-- Fixed exclusion set `COMMON_FIRST_NAMES` of the source. -/
def COMMON_FIRST_NAMES : List String :=
  ["DAVID", "JAMES", "JOHN", "MARY", "MARI", "JACK", "JANE", "PAUL", "ANNE",
   "MARK", "RUTH", "LOUIS", "MICHAEL", "PATRICIA", "THOMAS", "RICHARD",
   "ROBERT", "WILLIAM", "MARGARET", "ANDREA", "NAOMI", "CONNIE", "EVELYN",
   "IRENE", "KIRSTEN", "VINCENT", "LEO", "TARA", "THELMA", "MATTHEW",
   "TERRY", "JERE", "LINDA", "DEBRA", "KENNETH", "SHIRLEY", "WENDY",
   "SOPHIE", "RANDALL", "EUGENE", "CARL", "ELAINE", "LORIE", "MARTIN",
   "GREGORY", "TRAVIS", "LEE", "GERTRUDE", "ROBIN", "EDWARD", "JODY",
   "CHARLOTTE", "KRISTOPHER", "DAWNA", "BRUNHILDE", "HERBERT", "LYNN"]

/-- A word that is a single uppercase letter
(`len(words[i]) == 1 and words[i].isupper()`). -/
def singleUpper : List Char → Bool
  | [c] => isUpperAZ c
  | _ => false

/-- The `next_word` absorption test of `clean_spaced_text`:
`2 <= len <= 10`, `isupper()`, and not a common first name. -/
def absorbable (nw : List Char) : Bool :=
  2 ≤ nw.length && nw.length ≤ 10 && pyIsUpper nw &&
    !(COMMON_FIRST_NAMES.contains (String.mk nw))

/-- The word-scanning loop of `clean_spaced_text`, one word at a time.  The
first argument holds the run of single uppercase letters collected so far
(their concatenation and how many); when the run is broken by a non-single
word or the end of input, a run of length ≥ 2 is emitted as one combined
word (absorbing one following `absorbable` word), while an isolated single
letter is emitted unchanged — exactly the source's `while i < len(words)`
loop with its inner run collection. -/
def mergeAux : Option (List Char × Nat) → List (List Char) → List (List Char)
  | none, [] => []
  | none, w :: rest =>
    if singleUpper w then mergeAux (some (w, 1)) rest
    else w :: mergeAux none rest
  | some (acc, _), [] => [acc]
  | some (acc, n), w :: rest =>
    if singleUpper w then mergeAux (some (acc ++ w, n + 1)) rest
    else if 2 ≤ n && absorbable w then (acc ++ w) :: mergeAux none rest
    else acc :: w :: mergeAux none rest

/-- The word-scanning loop of `clean_spaced_text`: collect each maximal run of
single uppercase letters; a run of length ≥ 2 is joined into one word and may
absorb one following `absorbable` word; anything else passes through. -/
def mergeLoop (l : List (List Char)) : List (List Char) := mergeAux none l

/-- A word whose last character matches `\b([A-Z])` followed by a space in the
joined text: the word is a lone uppercase letter, or ends with an uppercase
letter preceded by a non-word character. -/
def endsSingleLetter (w : List Char) : Bool :=
  match w.reverse with
  | [] => false
  | [c] => isUpperAZ c
  | c :: p :: _ => isUpperAZ c && !isWordChar p

/-- A word matching `[A-Z]{5,}` entirely, as required for the second word of
the pattern (inside a whitespace-free word, the lookahead `(?=\s|$)` forces
the greedy `[A-Z]{5,}` to consume the whole word). -/
def upperWord5 (w : List Char) : Bool := 5 ≤ w.length && w.all isUpperAZ

/-- One match of `re.sub(r'\b([A-Z]) ([A-Z]{5,})(?=\s|$)', r'\1\2', ...)`
expressed on adjacent words of the single-spaced text. -/
def spacedPair (a b : List Char) : Bool := endsSingleLetter a && upperWord5 b

/-- The final regex pass of `clean_spaced_text`.  The text it runs on is a
single-space join of whitespace-free words, so every match of
`\b([A-Z]) ([A-Z]{5,})(?=\s|$)` consists of the final (boundary-preceded)
uppercase letter of one word, the following separator space, and the entirety
of the next word, which must be ≥ 5 uppercase letters; `re.sub` rewrites
matches left to right without rescanning the replacement. -/
def spacedSub : List (List Char) → List (List Char)
  | [] => []
  | [w] => [w]
  | a :: b :: t =>
    if spacedPair a b then (a ++ b) :: spacedSub t
    else a :: spacedSub (b :: t)

/-- `clean_spaced_text` of the source: whitespace normalisation, the
single-letter-run merge loop, then the `\b([A-Z]) ([A-Z]{5,})(?=\s|$)`
substitution pass. -/
def clean_spaced_text (text : String) : String :=
  if text = "" then text
  else String.mk (joinSp (spacedSub (mergeLoop (tokens text.data))))

/-!
`clean_spaced_address`: the leading spaced-digit repairs.
-/

/-- Maximal `p` such that the text starts with `p` repetitions of
"digit, literal space" — the greedy count for `(\d )+`. -/
def countDigitSpacePairs : List Char → Nat
  | d :: s :: rest =>
    if isDigitC d && s = ' ' then countDigitSpacePairs rest + 1 else 0
  | _ => 0

/-- Backtracking search for `^(\d )+\d{1,2}(?=\s)`: try the pair count `p`
from the greedy maximum downwards; at each `p`, try two digits then one digit
for `\d{1,2}` (greedy), requiring the lookahead whitespace after them.
Returns the length of the matched text. -/
def leadNumTryLen : List Char → Nat → Option Nat
  | _, 0 => none
  | cs, p + 1 =>
    match cs.drop (2 * (p + 1)) with
    | a :: b :: c :: _ =>
      if isDigitC a && isDigitC b && isSpaceC c then some (2 * (p + 1) + 2)
      else if isDigitC a && isSpaceC b then some (2 * (p + 1) + 1)
      else leadNumTryLen cs p
    | [a, b] =>
      if isDigitC a && isSpaceC b then some (2 * (p + 1) + 1)
      else leadNumTryLen cs p
    | _ => leadNumTryLen cs p

/-- `re.sub(r'^(\d )+\d{1,2}(?=\s)', <remove spaces>, text)`: anchored, so at
most one replacement; the replacement deletes the literal spaces of the
matched prefix. -/
def sub1Addr (cs : List Char) : List Char :=
  match leadNumTryLen cs (countDigitSpacePairs cs) with
  | some n => (cs.take n).filter (fun c => c ≠ ' ') ++ cs.drop n
  | none => cs

/-- Greedy count for `(\s\d)+`. -/
def countSpaceDigitPairs : List Char → Nat
  | s :: d :: rest =>
    if isSpaceC s && isDigitC d then countSpaceDigitPairs rest + 1 else 0
  | _ => 0

/-- The `re.match(r'^(\d(\s\d)+)', text)` collapse step: if the text starts
with a digit followed by one or more space-digit pairs, remove the spaces of
that (greedy-maximal) prefix. -/
def sub2Addr (cs : List Char) : List Char :=
  match cs with
  | d :: rest =>
    if isDigitC d && 1 ≤ countSpaceDigitPairs rest then
      (cs.take (1 + 2 * countSpaceDigitPairs rest)).filter (fun c => c ≠ ' ') ++
        cs.drop (1 + 2 * countSpaceDigitPairs rest)
    else cs
  | [] => []

/-- `clean_spaced_address` of the source: whitespace normalisation, the two
leading spaced-number repairs, then `clean_spaced_text`, then `strip`. -/
def clean_spaced_address (text : String) : String :=
  if text = "" then text
  else
    pyStrip (clean_spaced_text
      (String.mk (sub2Addr (sub1Addr (joinSp (tokens text.data))))))

/-!
`parse_money` and its model of Python `float(...)`.
-/

/-- Numeric value of a digit string. -/
def natOfDigits (cs : List Char) : Nat :=
  cs.foldl (fun a c => a * 10 + (c.toNat - 48)) 0

/-- Strip one optional sign. -/
def splitSign : List Char → (Int × List Char)
  | '+' :: t => (1, t)
  | '-' :: t => (-1, t)
  | cs => (1, cs)

/-- Model of Python `float(str)` on finite decimal literals: optional
surrounding whitespace, optional sign, `D+[.D*] | .D+`, optional
`(e|E)[+-]D+` exponent, value taken exactly in `ℚ` (no binary rounding;
`inf`/`nan`/digit-underscore literals are outside the model). -/
def pyFloat (s : String) : Option ℚ :=
  let cs := stripL s.data
  let sgn := (splitSign cs).1
  let cs1 := (splitSign cs).2
  let ip := cs1.takeWhile isDigitC
  let r1 := cs1.dropWhile isDigitC
  let hasDot := match r1 with | '.' :: _ => true | _ => false
  let fp := match r1 with | '.' :: t => t.takeWhile isDigitC | _ => []
  let r2 := match r1 with | '.' :: t => t.dropWhile isDigitC | _ => r1
  if ip = [] && (hasDot = false || fp = []) then none
  else
    let num : Int := sgn * Int.ofNat (natOfDigits (ip ++ fp))
    match r2 with
    | [] => some (mkRat num (10 ^ fp.length))
    | e :: t =>
      if e = 'e' || e = 'E' then
        let esgn := (splitSign t).1
        let ed := (splitSign t).2.takeWhile isDigitC
        if ed = [] || (splitSign t).2.dropWhile isDigitC ≠ [] then none
        else
          let ex : Int := esgn * Int.ofNat (natOfDigits ed) - Int.ofNat fp.length
          if 0 ≤ ex then some (mkRat (num * Int.ofNat (10 ^ ex.toNat)) 1)
          else some (mkRat num (10 ^ (-ex).toNat))
      else none

/-- `parse_money` of the source: on a truthy input, strip, delete every `$`
and `,` (`re.sub(r'[$,]', '', ...)`), then `float(...)` unless the cleaned
string is empty; conversion failure yields `None` via the `except` clause. -/
def parse_money (value : String) : Option ℚ :=
  if value = "" then none
  else
    let clean := (stripL value.data).filter (fun c => !(c = '$' || c = ','))
    if clean = [] then none else pyFloat (String.mk clean)

/-!
Parcel-id patterns.  Each matcher implements one regex of `PARCEL_PATTERNS`
at a fixed position, returning the length of the match; `searchLen` then
implements `re.search`'s leftmost-match rule.  Greedy maximal-munch is used
for every bounded digit run; this agrees with backtracking because in every
pattern a digit run is followed by `-`, `.`, an optional atom, or the end of
the pattern — never by another digit — so no shorter choice can succeed
where the maximal one fails.
-/

/-- Consume between `lo` and `hi` digits, maximal-munch. -/
def eatDigits (lo hi : Nat) (cs : List Char) : Option (Nat × List Char) :=
  if lo ≤ min hi (cs.takeWhile isDigitC).length then
    some (min hi (cs.takeWhile isDigitC).length,
      cs.drop (min hi (cs.takeWhile isDigitC).length))
  else none

/-- Consume one fixed character. -/
def eatChar (c : Char) : List Char → Option (Nat × List Char)
  | d :: t => if d = c then some (1, t) else none
  | [] => none

/-- Consume one `-` or `.` (the class `[-\.]`). -/
def eatDashDot : List Char → Option (Nat × List Char)
  | d :: t => if d = '-' || d = '.' then some (1, t) else none
  | [] => none

/-- Consume `\.+` (one or more dots, maximal-munch; the follow is `-`). -/
def eatDotRun (cs : List Char) : Option (Nat × List Char) :=
  if 1 ≤ (cs.takeWhile (fun c => c = '.')).length then
    some ((cs.takeWhile (fun c => c = '.')).length,
      cs.drop ((cs.takeWhile (fun c => c = '.')).length))
  else none

/-- Consume `\.?`. -/
def eatOptDot : List Char → (Nat × List Char)
  | '.' :: t => (1, t)
  | cs => (0, cs)

/-- Consume `\d?`. -/
def eatOptDigit : List Char → (Nat × List Char)
  | d :: t => if isDigitC d then (1, t) else (0, d :: t)
  | [] => (0, [])

/-- `r'\d{2}\.\d{2}-\d{2}\.+-\d{3}\.\d{2}-\d{3}'` (PA / Blair county). -/
def paBlairLen (cs : List Char) : Option Nat := do
  let (a, cs) ← eatDigits 2 2 cs
  let (b, cs) ← eatChar '.' cs
  let (c, cs) ← eatDigits 2 2 cs
  let (d, cs) ← eatChar '-' cs
  let (e, cs) ← eatDigits 2 2 cs
  let (f, cs) ← eatDotRun cs
  let (g, cs) ← eatChar '-' cs
  let (h, cs) ← eatDigits 3 3 cs
  let (i, cs) ← eatChar '.' cs
  let (j, cs) ← eatDigits 2 2 cs
  let (k, cs) ← eatChar '-' cs
  let (l, _) ← eatDigits 3 3 cs
  pure (a + b + c + d + e + f + g + h + i + j + k + l)

/-- `r'\d{2,3}-\d{2,3}-\d{3,4}\.?\d?'` (alternative PA format). -/
def paAltLen (cs : List Char) : Option Nat := do
  let (a, cs) ← eatDigits 2 3 cs
  let (b, cs) ← eatChar '-' cs
  let (c, cs) ← eatDigits 2 3 cs
  let (d, cs) ← eatChar '-' cs
  let (e, cs) ← eatDigits 3 4 cs
  let (f, cs) := eatOptDot cs
  let (g, _) := eatOptDigit cs
  pure (a + b + c + d + e + f + g)

/-- `r'\d{2}-\d{2}-\d{2}-\d{4}-\d{3}-\d{4}'` (FL). -/
def flLen (cs : List Char) : Option Nat := do
  let (a, cs) ← eatDigits 2 2 cs
  let (b, cs) ← eatChar '-' cs
  let (c, cs) ← eatDigits 2 2 cs
  let (d, cs) ← eatChar '-' cs
  let (e, cs) ← eatDigits 2 2 cs
  let (f, cs) ← eatChar '-' cs
  let (g, cs) ← eatDigits 4 4 cs
  let (h, cs) ← eatChar '-' cs
  let (i, cs) ← eatDigits 3 3 cs
  let (j, cs) ← eatChar '-' cs
  let (k, _) ← eatDigits 4 4 cs
  pure (a + b + c + d + e + f + g + h + i + j + k)

/-- `r'\d{5,10}'` (TX). -/
def txLen (cs : List Char) : Option Nat := do
  let (a, _) ← eatDigits 5 10 cs
  pure a

/-- `r'\d{2,3}[-\.]\d{2,3}[-\.]\d{3,4}'` (generic). -/
def defDashLen (cs : List Char) : Option Nat := do
  let (a, cs) ← eatDigits 2 3 cs
  let (b, cs) ← eatDashDot cs
  let (c, cs) ← eatDigits 2 3 cs
  let (d, cs) ← eatDashDot cs
  let (e, _) ← eatDigits 3 4 cs
  pure (a + b + c + d + e)

/-- `r'\d{8,12}'` (generic). -/
def defDigitsLen (cs : List Char) : Option Nat := do
  let (a, _) ← eatDigits 8 12 cs
  pure a

/-- `re.search`: the leftmost position where the matcher succeeds; returns
the matched substring (`group(0)`). -/
def searchLen (m : List Char → Option Nat) : List Char → Option (List Char)
  | [] => (match m [] with | some k => some (List.take k []) | none => none)
  | c :: t =>
    match m (c :: t) with
    | some k => some ((c :: t).take k)
    | none => searchLen m t

/-- `PARCEL_PATTERNS.get(state_code, [])` of the source. -/
def statePatterns (state_code : String) : List (List Char → Option Nat) :=
  if state_code = "PA" then [paBlairLen, paAltLen]
  else if state_code = "FL" then [flLen]
  else if state_code = "TX" then [txLen]
  else if state_code = "DEFAULT" then [defDashLen, defDigitsLen]
  else []

/-- `PARCEL_PATTERNS.get(state_code, []) + PARCEL_PATTERNS['DEFAULT']`. -/
def parcelPatterns (state_code : String) : List (List Char → Option Nat) :=
  statePatterns state_code ++ [defDashLen, defDigitsLen]

/-- The `reject_patterns` list of `parse_parcel_id`. -/
def rejectKeywords : List String :=
  ["TOWNSHIP", "BOROUGH", "CITY OF", "CAMA", "MAP NUMBER",
   "CONTROL", "OWNER", "DESCRIPTION", "LAND USE"]

/-- First pattern of the ordered list that finds a match. -/
def firstPatternHit : List (List Char → Option Nat) → List Char → Option String
  | [], _ => none
  | m :: ms, cs =>
    match searchLen m cs with
    | some w => some (String.mk w)
    | none => firstPatternHit ms cs

/-- `parse_parcel_id` of the source: reject falsy input; reject any value
whose stripped upper-casing contains a structural keyword; strip all internal
whitespace (`re.sub(r'\s+', '', ...)`); then return the first match of the
state-specific-then-default pattern list. -/
def parse_parcel_id (value : String) (state_code : String) : Option String :=
  if value = "" then none
  else
    if rejectKeywords.any (fun p => containsS (upperS (pyStrip value)) p) then none
    else
      firstPatternHit (parcelPatterns state_code)
        ((pyStrip value).data.filter (fun c => !isSpaceC c))

/-!
Row classification and format detection.  A table row is a list of possibly
absent cells (`Option String`); Python truthiness of a cell is
`some s` with `s ≠ ""`.
-/

/-- `str(row[k]).strip() if len(row) > k and row[k] else None` of the source. -/
def cellOrNone (row : List (Option String)) (i : Nat) : Option String :=
  match row.get? i with
  | some (some s) => if s = "" then none else some (pyStrip s)
  | _ => none

/-- `str(row[k]).strip() if ... else ""` of the source. -/
def cellOrEmpty (row : List (Option String)) (i : Nat) : String :=
  (cellOrNone row i).getD ""

/-- `str(row[0]).strip().upper() if row[0] else ""`. -/
def firstCellUpper (row : List (Option String)) : String :=
  match row.head? with
  | some (some s) => if s = "" then "" else upperS (pyStrip s)
  | _ => ""

/-- The `skip_patterns` list of `is_header_or_skip_row`. -/
def skipKeywords : List String :=
  ["TOWNSHIP", "BOROUGH", "CITY OF", "CAMA", "CONTROL", "REPUTED OWNER",
   "PROPERTY DESC", "MAP NUMBER", "LAND USE", "OWNER", "PARCEL",
   "DESCRIPTION", "AMOUNT", "BID"]

/-- Corporate-suffix vocabulary of the municipality-name heuristic. -/
def corpTokens : List String := ["LLC", "INC", "CORP", "TRUST"]

/-- `is_header_or_skip_row` of the source: short rows, rows whose first cell
contains column-header vocabulary, and all-caps digit-free first cells longer
than five characters without a corporate suffix
(`re.match(r'^[A-Z\s]+$', ...)` plus the LLC/INC/CORP/TRUST exception). -/
def is_header_or_skip_row (row : List (Option String)) : Bool :=
  if row.length < 2 then true
  else if skipKeywords.any (fun p => containsS (firstCellUpper row) p) then true
  else if (firstCellUpper row).data ≠ [] &&
      (firstCellUpper row).data.all (fun c => isUpperAZ c || isSpaceC c) &&
      5 < (firstCellUpper row).length then
    !(corpTokens.any (fun p => containsS (firstCellUpper row) p))
  else false

/-- `extract_municipality` of the source. -/
def extract_municipality (row : List (Option String)) : Option String :=
  if row.length = 0 then none
  else if containsS (firstCellUpper row) "TOWNSHIP" ||
      containsS (firstCellUpper row) "BOROUGH" ||
      containsS (firstCellUpper row) "CITY OF" then
    some (firstCellUpper row)
  else none

/-- `' '.join` on a list of strings (empties kept, as Python does). -/
def joinSpStr : List String → String
  | [] => ""
  | [s] => s
  | s :: rest => s ++ " " ++ joinSpStr rest

/-- The `full_text` assembled by `detect_pdf_format`: the upper-cased header
cells joined by spaces, a space, and the first 500 characters of the
upper-cased page text, upper-cased once more. -/
def detectFullText (first_row : List (Option String)) (page_text : String) : String :=
  upperS ((if first_row = [] then "" else
      joinSpStr (first_row.map (fun c =>
        match c with
        | some s => if s = "" then "" else upperS s
        | none => ""))) ++ " " ++ String.mk ((upperS page_text).data.take 500))

/-- `detect_pdf_format` of the source. -/
def detect_pdf_format (first_row : List (Option String)) (page_text : String) : String :=
  if containsS (detectFullText first_row page_text) "CAMA" &&
      containsS (detectFullText first_row page_text) "REPUTED OWNER" then "repository"
  else if containsS (detectFullText first_row page_text) "WINNING BID" ||
      containsS (detectFullText first_row page_text) "WINNING BIDDER" then "judicial"
  else if containsS (detectFullText first_row page_text) "UPSET" ||
      containsS (detectFullText first_row page_text) "APPROXIMATE" then "upset"
  else if containsS (detectFullText first_row page_text) "REPOSITORY" then "repository"
  else if containsS (detectFullText first_row page_text) "JUDICIAL" then "judicial"
  else "unknown"

/-!
The format-specific row parsers.  A parser's successful result is the dict it
builds, before the orchestrator attaches the sale metadata.
-/

/-- The partial property dict built by a row parser. -/
structure PreRec where
  parcel_id : String
  address : Option String
  owner : Option String
  city : Option String
  total_due : Option ℚ
  confidence : ℚ
deriving DecidableEq, Repr

/-- The full property record emitted by `parse_pdf` (the bare-text fallback
builds it with no city; an absent dict key and a `None` value are both
`none` here). -/
structure PRecord where
  parcel_id : String
  address : Option String
  owner : Option String
  city : Option String
  total_due : Option ℚ
  confidence : ℚ
  sale_type : String
  sale_date : Option String
  tax_year : Nat
  raw_text : String
deriving DecidableEq, Repr

/-- `re.match(r'^\d{7,8}$', ...)` (CAMA number). -/
def isCamaNumber (s : String) : Bool :=
  (7 ≤ s.data.length && s.data.length ≤ 8) && s.data.all isDigitC

/-- `re.match(r'^\d{3}-\d{6}$', ...)` (control number). -/
def isControlNumber (s : String) : Bool :=
  match s.data with
  | [a, b, c, d, e, f, g, h, i, j] =>
    isDigitC a && isDigitC b && isDigitC c && d = '-' &&
      isDigitC e && isDigitC f && isDigitC g && isDigitC h && isDigitC i && isDigitC j
  | _ => false

/-- `if owner: owner = clean_spaced_text(owner)`. -/
def cleanOwnerOpt : Option String → Option String
  | some s => if s = "" then some s else some (clean_spaced_text s)
  | none => none

/-- `if address: address = clean_spaced_address(address)`. -/
def cleanAddressOpt : Option String → Option String
  | some s => if s = "" then some s else some (clean_spaced_address s)
  | none => none

/-- `parse_repository_row` of the source: layout
CAMA#(0), Owner(1), Address(2), MapNumber(3); requires a 7-8 digit CAMA
number and a valid parcel id in column 3; confidence 0.95. -/
def parse_repository_row (row : List (Option String)) (state_code : String)
    (municipality : Option String) : Option PreRec :=
  if row.length < 4 then none
  else if !isCamaNumber (cellOrEmpty row 0) then none
  else
    match parse_parcel_id (cellOrEmpty row 3) state_code with
    | none => none
    | some pid =>
      some ⟨pid, cellOrNone row 2, cellOrNone row 1, municipality, none, mkRat 95 100⟩

/-- `parse_judicial_row` of the source: layout
*(0), Control#(1), Owner(2), Map#(3), Desc(4), ..., WinningBid(6); requires a
XXX-XXXXXX control number and a valid parcel id; text repair on owner and
address; "Not Sold" bids stay absent; city always absent; confidence 0.95. -/
def parse_judicial_row (row : List (Option String)) (state_code : String) : Option PreRec :=
  if row.length < 5 then none
  else if !isControlNumber (cellOrEmpty row 1) then none
  else
    match parse_parcel_id (cellOrEmpty row 3) state_code with
    | none => none
    | some pid =>
      some ⟨pid, cleanAddressOpt (cellOrNone row 4), cleanOwnerOpt (cellOrNone row 2),
        none,
        (match cellOrNone row 6 with
         | some w => if w ≠ "" ∧ w ≠ "Not Sold" then parse_money w else none
         | none => none),
        mkRat 95 100⟩

/-- `parse_upset_row` of the source: layout
Empty(0), Control#(1), Owner(2), Map#(3), Description(4), UpsetAmount(5);
same validation and repair as judicial, but bound to the municipality
context; confidence 0.95. -/
def parse_upset_row (row : List (Option String)) (state_code : String)
    (municipality : Option String) : Option PreRec :=
  if row.length < 6 then none
  else if !isControlNumber (cellOrEmpty row 1) then none
  else
    match parse_parcel_id (cellOrEmpty row 3) state_code with
    | none => none
    | some pid =>
      some ⟨pid, cleanAddressOpt (cellOrNone row 4), cleanOwnerOpt (cellOrNone row 2),
        municipality,
        (match cellOrNone row 5 with
         | some u => if u ≠ "" then parse_money u else none
         | none => none),
        mkRat 95 100⟩

/-!
The generic fallback parser.
-/

/-- Street-suffix alternatives of the address-guess regex. -/
def streetSuffixes : List String := ["ST", "AVE", "RD", "DR", "LN", "CT", "WAY", "BLVD"]

/-- One of the street suffixes starts here. -/
def streetAltAt (cs : List Char) : Bool :=
  streetSuffixes.any (fun p => leadsWith p.data cs)

/-- Scanning right from just after a digit: the regex `.*(?:ST|AVE|...)`
succeeds iff some suffix alternative starts before any newline
(`.` does not match a newline). -/
def streetTail : List Char → Bool
  | [] => false
  | c :: t => if streetAltAt (c :: t) then true else if c = '\n' then false else streetTail t

/-- `re.search(r'\d+.*(?:ST|AVE|RD|DR|LN|CT|WAY|BLVD)', ...)` as a Boolean:
some digit is followed (with no intervening newline) by a street suffix. -/
def addrSearch : List Char → Bool
  | [] => false
  | c :: t => if isDigitC c && streetTail t then true else addrSearch t

/-- The character class of the owner guess, `[A-Z\s&,\.]`. -/
def ownerClassChar (c : Char) : Bool :=
  isUpperAZ c || isSpaceC c || c = '&' || c = ',' || c = '.'

/-- Python falsiness of an optional string (None or empty). -/
def falsyS : Option String → Bool
  | none => true
  | some s => s = ""

/-- Python falsiness of an optional float (None or 0.0). -/
def falsyQ : Option ℚ → Bool
  | none => true
  | some q => q = 0

/-- One iteration of `parse_generic_row`'s cell loop; the accumulator is
(parcel_id, address, owner, amount). -/
def genericCellStep (state_code : String)
    (acc : Option String × Option String × Option String × Option ℚ)
    (cell : Option String) :
    Option String × Option String × Option String × Option ℚ :=
  match cell with
  | none => acc
  | some s0 =>
    if s0 = "" then acc
    else
      (if falsyS acc.1 then parse_parcel_id (pyStrip s0) state_code else acc.1,
       if falsyS acc.2.1 && addrSearch (upperS (pyStrip s0)).data then
         some (clean_spaced_address (pyStrip s0))
       else acc.2.1,
       if falsyS acc.2.2.1 &&
           ((pyStrip s0).data ≠ [] && (pyStrip s0).data.all ownerClassChar) &&
           5 < (pyStrip s0).length &&
           !(containsS (upperS (pyStrip s0)) "TOWNSHIP" ||
             containsS (upperS (pyStrip s0)) "BOROUGH" ||
             containsS (upperS (pyStrip s0)) "CITY OF") then
         some (clean_spaced_text (pyStrip s0))
       else acc.2.2.1,
       if falsyQ acc.2.2.2 && containsS (pyStrip s0) "$" then
         parse_money (pyStrip s0)
       else acc.2.2.2)

/-- `parse_generic_row` of the source: scan every cell, taking the first
valid parcel id, the first street-suffix cell as address, the first long
all-caps cell (not municipality vocabulary) as owner, the first `$` cell as
amount; confidence 0.70. -/
def parse_generic_row (row : List (Option String)) (state_code : String)
    (municipality : Option String) : Option PreRec :=
  match row.foldl (genericCellStep state_code) (none, none, none, none) with
  | (some pid, addr, owner, amt) =>
    if pid = "" then none
    else some ⟨pid, addr, owner, municipality, amt, mkRat 7 10⟩
  | (none, _, _, _) => none

/-!
The extraction orchestrator `parse_pdf`.
-/

/-- One page as the table-extraction collaborator presents it: raw text
(`page.extract_text() or ""`) and the extracted tables. -/
structure Page where
  text : String
  tables : List (List (List (Option String)))
deriving DecidableEq, Repr

/-- Per-document mutable state of the orchestrator, plus the output list. -/
structure ParseState where
  municipality : Option String
  fmt : Option String
  props : List PRecord
deriving DecidableEq, Repr

/-- Join with `" | "`. -/
def joinBarSep : List String → String
  | [] => ""
  | [s] => s
  | s :: rest => s ++ " | " ++ joinBarSep rest

/-- `' | '.join([str(c) for c in row if c])`. -/
def rawTextOfRow (row : List (Option String)) : String :=
  joinBarSep (row.filterMap (fun c =>
    match c with
    | some s => if s = "" then none else some s
    | none => none))

/-- Attach `sale_type`, `sale_date`, `tax_year`, `raw_text` to a parsed row
dict (the `datetime.now().year` of the source is the ambient `year`). -/
def finishRecord (sale_type : String) (sale_date : Option String) (year : Nat)
    (row : List (Option String)) (p : PreRec) : PRecord :=
  ⟨p.parcel_id, p.address, p.owner, p.city, p.total_due, p.confidence,
    sale_type, sale_date, year, rawTextOfRow row⟩

/-- The `if/elif` parser dispatch of `parse_pdf` on the current format. -/
def dispatchRow (state_code : String) (fmt : Option String)
    (municipality : Option String) (row : List (Option String)) : Option PreRec :=
  if fmt = some "repository" then parse_repository_row row state_code municipality
  else if fmt = some "judicial" then parse_judicial_row row state_code
  else if fmt = some "upset" then parse_upset_row row state_code municipality
  else parse_generic_row row state_code municipality

/-- The detected format after the `unknown → sale_type` substitution. -/
def detectedFormat (sale_type : String) (row : List (Option String))
    (page_text : String) : String :=
  if detect_pdf_format row page_text = "unknown" then sale_type
  else detect_pdf_format row page_text

/-- The row pipeline after the short-row guard and format decision: discard
the row if it is the column-header row of a freshly detected
repository/judicial document; else update municipality context on a marker
row; else skip header rows; else dispatch to the parser selected by `fmt1`,
appending the finished record on success. -/
def processRowRest (state_code sale_type : String) (sale_date : Option String)
    (year : Nat) (st : ParseState) (row : List (Option String))
    (fmt1 : Option String) (discard : Bool) : ParseState :=
  if discard then { st with fmt := fmt1 }
  else
    match extract_municipality row with
    | some m => { municipality := some m, fmt := fmt1, props := st.props }
    | none =>
      if is_header_or_skip_row row then { st with fmt := fmt1 }
      else
        match dispatchRow state_code fmt1 st.municipality row with
        | none => { st with fmt := fmt1 }
        | some p =>
          { municipality := st.municipality, fmt := fmt1,
            props := st.props ++ [finishRecord sale_type sale_date year row p] }

/-- One row of the `parse_pdf` table loop: skip short rows; on page 1, row 0,
with no format yet, detect the format (substituting the caller's sale type
for `unknown`) and discard the row when the result is repository/judicial;
otherwise run the classification/dispatch pipeline with the frozen format. -/
def processRow (state_code sale_type : String) (sale_date : Option String) (year : Nat)
    (page_num row_idx : Nat) (page_text : String) (st : ParseState)
    (row : List (Option String)) : ParseState :=
  if row.length < 3 then st
  else if page_num = 1 ∧ row_idx = 0 ∧ st.fmt = none then
    processRowRest state_code sale_type sale_date year st row
      (some (detectedFormat sale_type row page_text))
      (detectedFormat sale_type row page_text == "repository" ||
        detectedFormat sale_type row page_text == "judicial")
  else
    processRowRest state_code sale_type sale_date year st row st.fmt false

/-- `for row_idx, row in enumerate(table)`. -/
def processRows (state_code sale_type : String) (sale_date : Option String) (year : Nat)
    (page_num : Nat) (page_text : String) :
    Nat → ParseState → List (List (Option String)) → ParseState
  | _, st, [] => st
  | i, st, r :: rs =>
    processRows state_code sale_type sale_date year page_num page_text (i + 1)
      (processRow state_code sale_type sale_date year page_num i page_text st r) rs

/-- `for table in tables`. -/
def processTables (state_code sale_type : String) (sale_date : Option String) (year : Nat)
    (page_num : Nat) (page_text : String) :
    ParseState → List (List (List (Option String))) → ParseState
  | st, [] => st
  | st, t :: ts =>
    processTables state_code sale_type sale_date year page_num page_text
      (processRows state_code sale_type sale_date year page_num page_text 0 st t) ts

/-- Python `text.split('\n')`. -/
def splitOnNl : List Char → List (List Char)
  | [] => [[]]
  | c :: t =>
    if c = '\n' then [] :: splitOnNl t
    else
      match splitOnNl t with
      | l :: ls => (c :: l) :: ls
      | [] => [[c]]

/-- The record the bare-text fallback builds for a line with a parcel id. -/
def bareRecord (state_code sale_type : String) (sale_date : Option String)
    (year : Nat) (line : String) : Option PRecord :=
  match parse_parcel_id line state_code with
  | some pid => some ⟨pid, none, none, none, none, mkRat 1 2, sale_type, sale_date, year, line⟩
  | none => none

/-- The bare-text line scan of a page without tables. -/
def bareLines (state_code sale_type : String) (sale_date : Option String) (year : Nat) :
    ParseState → List String → ParseState
  | st, [] => st
  | st, l :: ls =>
    match bareRecord state_code sale_type sale_date year l with
    | some r =>
      bareLines state_code sale_type sale_date year
        { st with props := st.props ++ [r] } ls
    | none => bareLines state_code sale_type sale_date year st ls

/-- One page of `parse_pdf`: tables if any, else the bare-text fallback on a
non-empty page text. -/
def processPage (state_code sale_type : String) (sale_date : Option String) (year : Nat)
    (page_num : Nat) (st : ParseState) (pg : Page) : ParseState :=
  if pg.tables ≠ [] then
    processTables state_code sale_type sale_date year page_num pg.text st pg.tables
  else if pg.text ≠ "" then
    bareLines state_code sale_type sale_date year st
      ((splitOnNl pg.text.data).map String.mk)
  else st

/-- `for page_num, page in enumerate(pdf.pages, 1)`. -/
def parse_pdfAux (state_code sale_type : String) (sale_date : Option String) (year : Nat) :
    Nat → ParseState → List Page → ParseState
  | _, st, [] => st
  | pn, st, pg :: pgs =>
    parse_pdfAux state_code sale_type sale_date year (pn + 1)
      (processPage state_code sale_type sale_date year pn st pg) pgs

/-- The final orchestrator state of a document parse. -/
def parse_pdfFinal (doc : List Page) (state_code sale_type : String)
    (sale_date : Option String) (year : Nat) : ParseState :=
  parse_pdfAux state_code sale_type sale_date year 1 ⟨none, none, []⟩ doc

/-- `parse_pdf` of the source: the emitted property list. -/
def parse_pdf (doc : List Page) (state_code sale_type : String)
    (sale_date : Option String) (year : Nat) : List PRecord :=
  (parse_pdfFinal doc state_code sale_type sale_date year).props

/-- Words that are non-empty and built from word characters only (the token
shape of a punctuation-free input). -/
@[reducible] def goodToks (l : List (List Char)) : Prop :=
  ∀ w ∈ l, w ≠ [] ∧ ∀ c ∈ w, isWordChar c = true

/-- No two adjacent words are single uppercase letters (what the merge loop
guarantees about its output). -/
@[reducible] def noAdjSingles (l : List (List Char)) : Prop :=
  List.Chain' (fun a b => ¬(singleUpper a = true ∧ singleUpper b = true)) l

/-- No adjacent pair of words matches the spaced-single-letter pattern (what
makes the substitution pass a no-op). -/
@[reducible] def noSpacedMatch (l : List (List Char)) : Prop :=
  List.Chain' (fun a b => spacedPair a b = false) l

/-- The three confidence tiers a record can carry (0.95 format-specific,
0.70 generic, 0.50 bare-text). -/
def confTier (p : PRecord) : Prop :=
  p.confidence = mkRat 95 100 ∨ p.confidence = mkRat 7 10 ∨ p.confidence = mkRat 1 2

/-- The tiers reachable while the format is undecided (generic and
bare-text only). -/
def looseTier (p : PRecord) : Prop :=
  p.confidence = mkRat 7 10 ∨ p.confidence = mkRat 1 2

/-- The shape of a bare-text fallback record: only parcel id and raw text
are populated, at confidence 0.50. -/
def bareShape (p : PRecord) : Prop :=
  p.address = none ∧ p.owner = none ∧ p.total_due = none ∧
    p.confidence = mkRat 1 2

/-!
Concrete documents used to evaluate the claims.
-/

/-- A structurally valid upset-format data row. -/
def rowUpsetData : List (Option String) :=
  [some "", some "123-456789", some "SMITH JOHN", some "07.08-09..-123.45-678",
   some "815 3RD AVE", some "$1,234.56"]

/-- A three-cell row with a valid parcel id but too few cells for the upset
parser. -/
def rowShortData : List (Option String) :=
  [some "07.08-09..-123.45-678", some "123 MAIN ST", some "55"]

/-- An upset-list banner row. -/
def rowUpsetBanner : List (Option String) :=
  [some "UPSET SALE LIST", some "X", some "Y"]

/-- A two-cell municipality marker row. -/
def rowShortTownship : List (Option String) := [some "LOGAN TOWNSHIP", some "x"]

/-- A two-cell row carrying the judicial signature. -/
def rowJudHeaderShort : List (Option String) := [some "WINNING BID", some "x"]

/-- The repository column-header row of the specification. -/
def rowRepoHeader : List (Option String) :=
  [some "CAMA#", some "REPUTED OWNER", some "ADDRESS", some "MAP NUMBER",
   some "LAND USE"]

/-- A structurally valid repository-format data row. -/
def rowRepoData : List (Option String) :=
  [some "12345678", some "SMITH JOHN", some "123 MAIN ST",
   some "01.05-16..-093.00-000", some "Residential"]

/-- Upset document whose second data row fails the upset parser. -/
def docUpsetShortRow : List Page :=
  [⟨"", [[rowUpsetBanner, rowShortData]]⟩]

/-- Upset document with a two-cell township marker before a data row. -/
def docShortTownship : List Page :=
  [⟨"", [[rowUpsetBanner, rowShortTownship, rowUpsetData]]⟩]

/-- Document whose first table's first row is too short to be seen, while a
second table on page 1 carries a repository header and a data row. -/
def docSecondTable : List Page :=
  [⟨"", [[rowJudHeaderShort], [rowRepoHeader, rowRepoData]]⟩]

/-- Upset document whose very first row is a genuine data row. -/
def docUpsetFirstRow : List Page := [⟨"UPSET SALE", [[rowUpsetData]]⟩]

/-- Document with no tables and a parcel id in the page text. -/
def docBareParcel : List Page := [⟨"07.08-09..-123.45-678", []⟩]

/-- The single record `docBareParcel` produces. -/
def recBareParcel : PRecord :=
  ⟨"07.08-09..-123.45-678", none, none, none, none, mkRat 1 2,
    "upset", none, 2026, "07.08-09..-123.45-678"⟩

/-- Document with no tables whose page text contains a default-pattern
parcel-id substring on a line that also contains the keyword CONTROL. -/
def docBareControl : List Page := [⟨"CONTROL 12345678", []⟩]

/-- Document whose only table starts with a two-cell row, so that format
detection never fires and the three-cell data row is parsed generically. -/
def docShortFirstGeneric : List Page :=
  [⟨"", [[rowShortTownship, rowShortData]]⟩]

/-!
Claim C9: `parse_money`.
-/

/-- C9: `parse_money` strips dollar signs and commas and converts the rest
exactly: `"$12,345.00"` parses to 12345.00, `"Not Sold"` and the empty
string are absent, negative amounts pass through unclamped, conversion
failure and an input that becomes empty after cleaning are absent. -/
theorem c9_parse_money_examples :
    parse_money "$12,345.00" = some (12345 : ℚ) ∧
    parse_money "Not Sold" = none ∧
    parse_money "" = none ∧
    parse_money "-$1,234.56" = some (mkRat (-123456) 100) ∧
    parse_money "abc" = none ∧
    parse_money "$," = none ∧
    parse_money "$0.00" = some (0 : ℚ) := by
  refine ⟨?_, ?_, ?_, ?_, ?_, ?_, ?_⟩ <;> decide

/-!
Claim C3: the keyword rejection of `parse_parcel_id`.
-/

/-- C3: for every input and state code, `parse_parcel_id` returns `none`
whenever the stripped input, compared case-insensitively, contains
"TOWNSHIP", "BOROUGH", "CAMA", or "CONTROL". -/
theorem c3_parcel_keyword_reject (v state_code : String)
    (h : containsS (upperS (pyStrip v)) "TOWNSHIP" = true ∨
         containsS (upperS (pyStrip v)) "BOROUGH" = true ∨
         containsS (upperS (pyStrip v)) "CAMA" = true ∨
         containsS (upperS (pyStrip v)) "CONTROL" = true) :
    parse_parcel_id v state_code = none := by
  have hany : rejectKeywords.any (fun p => containsS (upperS (pyStrip v)) p) = true := by
    apply List.any_eq_true.mpr
    rcases h with h | h | h | h
    · exact ⟨"TOWNSHIP", by simp [rejectKeywords], h⟩
    · exact ⟨"BOROUGH", by simp [rejectKeywords], h⟩
    · exact ⟨"CAMA", by simp [rejectKeywords], h⟩
    · exact ⟨"CONTROL", by simp [rejectKeywords], h⟩
  unfold parse_parcel_id
  split
  · rfl
  · simp [hany]

/-- Witness for C3 at a concrete township cell. -/
theorem c3_witness :
    (containsS (upperS (pyStrip "LOGAN TOWNSHIP")) "TOWNSHIP" = true ∨
     containsS (upperS (pyStrip "LOGAN TOWNSHIP")) "BOROUGH" = true ∨
     containsS (upperS (pyStrip "LOGAN TOWNSHIP")) "CAMA" = true ∨
     containsS (upperS (pyStrip "LOGAN TOWNSHIP")) "CONTROL" = true) ∧
    parse_parcel_id "LOGAN TOWNSHIP" "PA" = none :=
  ⟨Or.inl (by decide),
   c3_parcel_keyword_reject "LOGAN TOWNSHIP" "PA" (Or.inl (by decide))⟩

/-!
Claim C4: detection of the upset format.
-/

/-- C4 fails on the code: a first row containing "CONTROL NO" and none of
the other signatures detects as "unknown", not "upset" — "CONTROL NO" is not
among the upset triggers of `detect_pdf_format`. -/
theorem c4_counterexample :
    containsS (detectFullText [some "CONTROL NO", some "X", some "Y"] "") "CONTROL NO" = true ∧
    containsS (detectFullText [some "CONTROL NO", some "X", some "Y"] "") "CAMA" = false ∧
    containsS (detectFullText [some "CONTROL NO", some "X", some "Y"] "") "WINNING BID" = false ∧
    containsS (detectFullText [some "CONTROL NO", some "X", some "Y"] "") "WINNING BIDDER" = false ∧
    detect_pdf_format [some "CONTROL NO", some "X", some "Y"] "" = "unknown" := by
  refine ⟨?_, ?_, ?_, ?_, ?_⟩ <;> decide

/-- C4 amended: `detect_pdf_format` returns "upset" whenever the combined
header-and-page text contains "UPSET" or "APPROXIMATE" and carries neither
the repository signature (both "CAMA" and "REPUTED OWNER") nor a judicial
signature ("WINNING BID"/"WINNING BIDDER"); text whose only signal is
"CONTROL NO" instead yields "unknown". -/
theorem c4_amended_upset_detection (first_row : List (Option String)) (page_text : String)
    (hup : containsS (detectFullText first_row page_text) "UPSET" = true ∨
           containsS (detectFullText first_row page_text) "APPROXIMATE" = true)
    (hrep : ¬(containsS (detectFullText first_row page_text) "CAMA" = true ∧
              containsS (detectFullText first_row page_text) "REPUTED OWNER" = true))
    (hwb : containsS (detectFullText first_row page_text) "WINNING BID" = false)
    (hwbr : containsS (detectFullText first_row page_text) "WINNING BIDDER" = false) :
    detect_pdf_format first_row page_text = "upset" := by
  have hA : (containsS (detectFullText first_row page_text) "CAMA" &&
      containsS (detectFullText first_row page_text) "REPUTED OWNER") = false := by
    cases hca : containsS (detectFullText first_row page_text) "CAMA" <;>
      cases hro : containsS (detectFullText first_row page_text) "REPUTED OWNER" <;>
        simp_all
  have hB : (containsS (detectFullText first_row page_text) "WINNING BID" ||
      containsS (detectFullText first_row page_text) "WINNING BIDDER") = false := by
    rw [hwb, hwbr]; rfl
  have hC : (containsS (detectFullText first_row page_text) "UPSET" ||
      containsS (detectFullText first_row page_text) "APPROXIMATE") = true := by
    rcases hup with h | h <;> simp [h]
  unfold detect_pdf_format
  rw [hA, hB, hC]
  rfl

/-- Witness for the amended C4 at a concrete upset banner row. -/
theorem c4_witness :
    detect_pdf_format [some "UPSET SALE", some "X", some "Y"] "" = "upset" :=
  c4_amended_upset_detection [some "UPSET SALE", some "X", some "Y"] ""
    (Or.inl (by decide)) (by decide) (by decide) (by decide)

/-!
Claim C7: idempotence of the name repair.
-/

/-- C7 fails on the code: `clean_spaced_text` is not idempotent.  On
"X-A B CDEFG" the first pass merges "B CDEFG" into "BCDEFG"; the second pass
then sees "A BCDEFG" (the "A" sits at a word boundary after the hyphen) and
merges again. -/
theorem c7_counterexample :
    clean_spaced_text (clean_spaced_text "X-A B CDEFG") ≠
      clean_spaced_text "X-A B CDEFG" := by
  decide

/-!
Claim C1: no per-row generic fallback under a frozen specific format.
-/

/-- C1 fails on the code: with the frozen format "upset", a data row that
fails the upset parser's structural validation yields no record at all —
`parse_pdf` emits nothing — even though the generic parser applied to the
same row would produce a record. -/
theorem c1_counterexample :
    parse_pdf docUpsetShortRow "PA" "upset" none 2026 = [] ∧
    parse_upset_row rowShortData "PA" none = none ∧
    (parse_generic_row rowShortData "PA" none).isSome = true := by
  refine ⟨?_, ?_, ?_⟩ <;> decide

/-!
Claim C2: municipality context.
-/

/-- C2 fails on the code: a two-cell township row is discarded by the
`len(row) < 3` guard before municipality extraction, so the context is not
updated and the following upset record carries no city. -/
theorem c2_counterexample :
    containsS (firstCellUpper rowShortTownship) "TOWNSHIP" = true ∧
    rowShortTownship.length < 3 ∧
    (parse_pdf docShortTownship "PA" "upset" none 2026).map (fun p => p.city) =
      [none] := by
  refine ⟨?_, ?_, ?_⟩ <;> decide

/-!
Claim C5 / C10: when and where the format is decided.
-/

/-- C5 fails on the code: if the first table's first row has fewer than three
cells it is skipped before detection, and the format is instead decided on
the first row of a later table of page 1.  Concretely, the first table's
first row of `docSecondTable` carries the judicial signature, yet the frozen
format is "repository" (decided on the second table's header), and that
header's table contributes a 0.95-confidence repository record. -/
theorem c5_counterexample :
    detect_pdf_format rowJudHeaderShort "" = "judicial" ∧
    docSecondTable = [⟨"", [[rowJudHeaderShort], [rowRepoHeader, rowRepoData]]⟩] ∧
    (parse_pdfFinal docSecondTable "PA" "unknown" none 2026).fmt = some "repository" ∧
    (parse_pdf docSecondTable "PA" "unknown" none 2026).map (fun p => p.confidence) =
      [mkRat 95 100] := by
  refine ⟨?_, rfl, ?_, ?_⟩ <;> decide

/-- C10 fails on the code: with the first table's first row shorter than
three cells, format detection still runs — on the first row of the *second*
table of page 1 — so the format does not stay undecided and the document's
rows are not all dispatched to the generic parser (a 0.95 repository record
is emitted). -/
theorem c10_counterexample :
    rowJudHeaderShort.length < 3 ∧
    docSecondTable = [⟨"", [[rowJudHeaderShort], [rowRepoHeader, rowRepoData]]⟩] ∧
    (parse_pdfFinal docSecondTable "PA" "unknown" none 2026).fmt ≠ none ∧
    (parse_pdf docSecondTable "PA" "unknown" none 2026).map (fun p => p.confidence) ≠
      [mkRat 7 10] := by
  refine ⟨?_, rfl, ?_, ?_⟩ <;> decide

/-!
Claim C8: the bare-text fallback.
-/

/-- C8 fails on the code: a tableless document whose page text contains a
substring matching the default pattern `\d{8,12}` can still emit nothing,
because the bare-text scan runs `parse_parcel_id` per line and the line also
contains the rejected keyword "CONTROL". -/
theorem c8_counterexample :
    (∀ pg ∈ docBareControl, pg.tables = []) ∧
    containsS "CONTROL 12345678" "12345678" = true ∧
    defDigitsLen "12345678".data = some 8 ∧
    parse_pdf docBareControl "PA" "upset" none 2026 = [] := by
  refine ⟨?_, ?_, ?_, ?_⟩
  · intro pg hpg
    simp only [docBareControl, List.mem_singleton] at hpg
    rw [hpg]
  · decide
  · decide
  · decide

/-- Any dispatch failure leaves the emitted record list unchanged. -/
theorem prrPropsPreserved (sc stype : String) (sdate : Option String) (year : Nat)
    (st : ParseState) (row : List (Option String)) (fmt1 : Option String) (d : Bool)
    (hdisp : dispatchRow sc fmt1 st.municipality row = none) :
    (processRowRest sc stype sdate year st row fmt1 d).props = st.props := by
  unfold processRowRest
  split
  · rfl
  · split
    · rfl
    · split
      · rfl
      · rw [hdisp]

/-- A non-marker row leaves the municipality context unchanged. -/
theorem prrMunicipalityPreserved (sc stype : String) (sdate : Option String) (year : Nat)
    (st : ParseState) (row : List (Option String)) (fmt1 : Option String) (d : Bool)
    (hmun : extract_municipality row = none) :
    (processRowRest sc stype sdate year st row fmt1 d).municipality = st.municipality := by
  unfold processRowRest
  split
  · rfl
  · rw [hmun]
    split
    · rename_i heq
      cases heq
    · split
      · rfl
      · split <;> rfl

/-- An undiscarded marker row only updates the context. -/
theorem prrMarker (sc stype : String) (sdate : Option String) (year : Nat)
    (st : ParseState) (row : List (Option String)) (fmt1 : Option String) (m : String)
    (hmun : extract_municipality row = some m) :
    processRowRest sc stype sdate year st row fmt1 false
      = ⟨some m, fmt1, st.props⟩ := by
  unfold processRowRest
  rw [hmun]
  rfl

/-- Every record the pipeline appends comes from the dispatched parser. -/
theorem prrNewRecord (sc stype : String) (sdate : Option String) (year : Nat)
    (st : ParseState) (row : List (Option String)) (fmt1 : Option String) (d : Bool)
    (p : PRecord)
    (hp : p ∈ (processRowRest sc stype sdate year st row fmt1 d).props) :
    p ∈ st.props ∨
      ∃ q, dispatchRow sc fmt1 st.municipality row = some q ∧
        p = finishRecord stype sdate year row q := by
  unfold processRowRest at hp
  split at hp
  · exact Or.inl hp
  · split at hp
    · exact Or.inl hp
    · split at hp
      · exact Or.inl hp
      · rename_i hdsp
        cases hq : dispatchRow sc fmt1 st.municipality row with
        | none => rw [hq] at hp; exact Or.inl hp
        | some q =>
          rw [hq] at hp
          simp only [List.mem_append, List.mem_singleton] at hp
          rcases hp with hp | hp
          · exact Or.inl hp
          · exact Or.inr ⟨q, rfl, hp⟩

/-- C1 amended: under a frozen repository/judicial/upset format the
dispatcher calls exactly the format-specific parser, and a data row that
parser rejects is dropped — no record is emitted for it and no generic
fallback is consulted. -/
theorem c1_amended_failed_row_dropped :
    (∀ sc m row, dispatchRow sc (some "repository") m row = parse_repository_row row sc m) ∧
    (∀ sc m row, dispatchRow sc (some "judicial") m row = parse_judicial_row row sc) ∧
    (∀ sc m row, dispatchRow sc (some "upset") m row = parse_upset_row row sc m) ∧
    (∀ sc stype sdate year pn ri ptext st row f,
      st.fmt = some f →
      dispatchRow sc (some f) st.municipality row = none →
      (processRow sc stype sdate year pn ri ptext st row).props = st.props) := by
  refine ⟨fun sc m row => rfl, fun sc m row => rfl, fun sc m row => rfl, ?_⟩
  intro sc stype sdate year pn ri ptext st row f hf hdisp
  unfold processRow
  split
  · rfl
  · split
    · rename_i hdet
      rw [hf] at hdet
      exact absurd hdet.2.2 (by simp)
    · rw [hf]
      exact prrPropsPreserved sc stype sdate year st row (some f) false hdisp

/-- Witness for the amended C1: the three-cell row with a valid parcel id is
dropped under the frozen upset format. -/
theorem c1_witness :
    (processRow "PA" "upset" none 2026 1 1 ""
      ⟨none, some "upset", []⟩ rowShortData).props = [] :=
  c1_amended_failed_row_dropped.2.2.2 "PA" "upset" none 2026 1 1 ""
    ⟨none, some "upset", []⟩ rowShortData "upset" rfl (by decide)

/-- C2 amended: a marker row updates the municipality context (and yields no
record) only when it survives the three-cell guard and is not the discarded
detection row; the context persists across non-marker rows; upset and
repository records carry the context as their city while judicial records
never carry a city. -/
theorem c2_amended_municipality_context :
    (∀ sc stype sdate year pn ri ptext st row m,
      ¬ row.length < 3 →
      ¬(pn = 1 ∧ ri = 0 ∧ st.fmt = none) →
      extract_municipality row = some m →
      processRow sc stype sdate year pn ri ptext st row
        = ⟨some m, st.fmt, st.props⟩) ∧
    (∀ sc stype sdate year pn ri ptext st row,
      extract_municipality row = none →
      (processRow sc stype sdate year pn ri ptext st row).municipality = st.municipality) ∧
    (∀ row sc m p, parse_upset_row row sc m = some p → p.city = m) ∧
    (∀ row sc m p, parse_repository_row row sc m = some p → p.city = m) ∧
    (∀ row sc p, parse_judicial_row row sc = some p → p.city = none) ∧
    (∀ sc stype sdate year pn ri ptext st row p,
      st.fmt = some "upset" →
      p ∈ (processRow sc stype sdate year pn ri ptext st row).props →
      p ∈ st.props ∨ p.city = st.municipality) ∧
    (∀ sc stype sdate year pn ri ptext st row p,
      st.fmt = some "judicial" →
      p ∈ (processRow sc stype sdate year pn ri ptext st row).props →
      p ∈ st.props ∨ p.city = none) := by
  have hups : ∀ row sc m p, parse_upset_row row sc m = some p → p.city = m := by
    intro row sc m p h
    unfold parse_upset_row at h
    split at h
    · cases h
    · split at h
      · cases h
      · split at h
        · cases h
        · cases h; rfl
  have hrep : ∀ row sc m p, parse_repository_row row sc m = some p → p.city = m := by
    intro row sc m p h
    unfold parse_repository_row at h
    split at h
    · cases h
    · split at h
      · cases h
      · split at h
        · cases h
        · cases h; rfl
  have hjud : ∀ row sc p, parse_judicial_row row sc = some p → p.city = none := by
    intro row sc p h
    unfold parse_judicial_row at h
    split at h
    · cases h
    · split at h
      · cases h
      · split at h
        · cases h
        · cases h; rfl
  refine ⟨?_, ?_, hups, hrep, hjud, ?_, ?_⟩
  · intro sc stype sdate year pn ri ptext st row m hlen hdet hmun
    unfold processRow
    rw [if_neg hlen, if_neg hdet]
    exact prrMarker sc stype sdate year st row st.fmt m hmun
  · intro sc stype sdate year pn ri ptext st row hmun
    unfold processRow
    split
    · rfl
    · split
      · exact prrMunicipalityPreserved sc stype sdate year st row _ _ hmun
      · exact prrMunicipalityPreserved sc stype sdate year st row _ _ hmun
  · intro sc stype sdate year pn ri ptext st row p hf hp
    unfold processRow at hp
    split at hp
    · exact Or.inl hp
    · split at hp
      · rename_i hdet
        rw [hf] at hdet
        exact absurd hdet.2.2 (by simp)
      · rw [hf] at hp
        rcases prrNewRecord sc stype sdate year st row (some "upset") false p hp with
          h | ⟨q, hq, hpq⟩
        · exact Or.inl h
        · right
          rw [hpq]
          exact hups row sc st.municipality q hq
  · intro sc stype sdate year pn ri ptext st row p hf hp
    unfold processRow at hp
    split at hp
    · exact Or.inl hp
    · split at hp
      · rename_i hdet
        rw [hf] at hdet
        exact absurd hdet.2.2 (by simp)
      · rw [hf] at hp
        rcases prrNewRecord sc stype sdate year st row (some "judicial") false p hp with
          h | ⟨q, hq, hpq⟩
        · exact Or.inl h
        · right
          rw [hpq]
          exact hjud row sc q hq

/-- Witness for the amended C2 on the concrete three-cell township marker and
the concrete upset data row. -/
theorem c2_witness :
    processRow "PA" "upset" none 2026 1 1 ""
        ⟨none, some "upset", []⟩ [some "LOGAN TOWNSHIP", some "x", some "y"]
      = ⟨some "LOGAN TOWNSHIP", some "upset", []⟩ ∧
    (∀ p, parse_upset_row rowUpsetData "PA" (some "LOGAN TOWNSHIP") = some p →
      p.city = some "LOGAN TOWNSHIP") ∧
    (processRow "PA" "upset" none 2026 1 1 ""
        ⟨none, some "upset", []⟩ rowUpsetData).municipality = none :=
  ⟨c2_amended_municipality_context.1 "PA" "upset" none 2026 1 1 ""
      ⟨none, some "upset", []⟩ [some "LOGAN TOWNSHIP", some "x", some "y"]
      "LOGAN TOWNSHIP" (by decide) (by simp) (by decide),
   fun p hp => c2_amended_municipality_context.2.2.1 rowUpsetData "PA"
      (some "LOGAN TOWNSHIP") p hp,
   c2_amended_municipality_context.2.1 "PA" "upset" none 2026 1 1 ""
      ⟨none, some "upset", []⟩ rowUpsetData (by decide)⟩

/-- The row pipeline always leaves the format it was given. -/
theorem prrFmt (sc stype : String) (sdate : Option String) (year : Nat)
    (st : ParseState) (row : List (Option String)) (fmt1 : Option String) (d : Bool) :
    (processRowRest sc stype sdate year st row fmt1 d).fmt = fmt1 := by
  unfold processRowRest
  split
  · rfl
  · split
    · rfl
    · split
      · rfl
      · split <;> rfl

/-- A discarded detection row only freezes the format. -/
theorem prrDiscard (sc stype : String) (sdate : Option String) (year : Nat)
    (st : ParseState) (row : List (Option String)) (fmt1 : Option String) :
    processRowRest sc stype sdate year st row fmt1 true
      = ⟨st.municipality, fmt1, st.props⟩ := rfl

/-- C5 amended: the format is frozen once set (no later row changes it), it
can only be decided on a row-index-0 row of page 1 — which, when the first
table's first row is short, is the first surviving table's first row rather
than the literal first row of the first table — a freshly detected
repository/judicial format discards its detection row as a column header,
and an upset detection row proceeds as data (the concrete one-row upset
document emits its first row as a 0.95-confidence record). -/
theorem c5_amended_format_decision :
    (∀ sc stype sdate year pn ri ptext st row f, st.fmt = some f →
      (processRow sc stype sdate year pn ri ptext st row).fmt = some f) ∧
    (∀ sc stype sdate year pn ri ptext st row, ¬(pn = 1 ∧ ri = 0) →
      (processRow sc stype sdate year pn ri ptext st row).fmt = st.fmt) ∧
    (∀ sc stype sdate year ptext st row f, st.fmt = none → ¬ row.length < 3 →
      detectedFormat stype row ptext = f →
      (f = "repository" ∨ f = "judicial") →
      processRow sc stype sdate year 1 0 ptext st row
        = ⟨st.municipality, some f, st.props⟩) ∧
    (parse_pdf docUpsetFirstRow "PA" "upset" none 2026).map
        (fun p => (p.parcel_id, p.confidence))
      = [("07.08-09..-123.45-678", mkRat 95 100)] := by
  refine ⟨?_, ?_, ?_, by decide⟩
  · intro sc stype sdate year pn ri ptext st row f hf
    unfold processRow
    split
    · exact hf
    · split
      · rename_i hdet
        rw [hf] at hdet
        exact absurd hdet.2.2 (by simp)
      · rw [prrFmt]
        exact hf
  · intro sc stype sdate year pn ri ptext st row hno
    unfold processRow
    split
    · rfl
    · split
      · rename_i hdet
        exact absurd ⟨hdet.1, hdet.2.1⟩ hno
      · exact prrFmt sc stype sdate year st row st.fmt false
  · intro sc stype sdate year ptext st row f hfmt hlen hdf hmem
    unfold processRow
    rw [if_neg hlen, if_pos ⟨rfl, rfl, hfmt⟩, hdf]
    have hd : (f == "repository" || f == "judicial") = true := by
      rcases hmem with h | h <;> rw [h] <;> rfl
    rw [hd]
    exact prrDiscard sc stype sdate year st row (some f)

/-- Witness for the amended C5: freezing, locality, and the discarded
repository header row, at concrete inputs. -/
theorem c5_witness :
    (processRow "PA" "unknown" none 2026 2 7 ""
      ⟨none, some "repository", []⟩ rowRepoData).fmt = some "repository" ∧
    (processRow "PA" "unknown" none 2026 2 0 ""
      ⟨none, none, []⟩ rowRepoData).fmt = none ∧
    processRow "PA" "unknown" none 2026 1 0 ""
        ⟨none, none, []⟩ rowRepoHeader
      = ⟨none, some "repository", []⟩ :=
  ⟨c5_amended_format_decision.1 "PA" "unknown" none 2026 2 7 ""
      ⟨none, some "repository", []⟩ rowRepoData "repository" rfl,
   c5_amended_format_decision.2.1 "PA" "unknown" none 2026 2 0 ""
      ⟨none, none, []⟩ rowRepoData (by simp),
   c5_amended_format_decision.2.2.1 "PA" "unknown" none 2026 ""
      ⟨none, none, []⟩ rowRepoHeader "repository" rfl (by decide) (by decide)
      (Or.inl rfl)⟩

/-- The upset parser always reports confidence 0.95. -/
theorem upsetRowConf (row : List (Option String)) (sc : String) (m : Option String)
    (q : PreRec) (h : parse_upset_row row sc m = some q) :
    q.confidence = mkRat 95 100 := by
  unfold parse_upset_row at h
  split at h
  · cases h
  · split at h
    · cases h
    · split at h
      · cases h
      · cases h; rfl

/-- The repository parser always reports confidence 0.95. -/
theorem repoRowConf (row : List (Option String)) (sc : String) (m : Option String)
    (q : PreRec) (h : parse_repository_row row sc m = some q) :
    q.confidence = mkRat 95 100 := by
  unfold parse_repository_row at h
  split at h
  · cases h
  · split at h
    · cases h
    · split at h
      · cases h
      · cases h; rfl

/-- The judicial parser always reports confidence 0.95. -/
theorem judRowConf (row : List (Option String)) (sc : String)
    (q : PreRec) (h : parse_judicial_row row sc = some q) :
    q.confidence = mkRat 95 100 := by
  unfold parse_judicial_row at h
  split at h
  · cases h
  · split at h
    · cases h
    · split at h
      · cases h
      · cases h; rfl

/-- The generic parser always reports confidence 0.70. -/
theorem genRowConf (row : List (Option String)) (sc : String) (m : Option String)
    (q : PreRec) (h : parse_generic_row row sc m = some q) :
    q.confidence = mkRat 7 10 := by
  unfold parse_generic_row at h
  split at h
  · split at h
    · cases h
    · cases h; rfl
  · cases h

/-- A bare-text record has only parcel id and raw text populated, at
confidence 0.50. -/
theorem bareRecShape (sc stype : String) (sdate : Option String) (year : Nat)
    (line : String) (r : PRecord)
    (h : bareRecord sc stype sdate year line = some r) : bareShape r := by
  unfold bareRecord at h
  split at h
  · cases h
    exact ⟨rfl, rfl, rfl, rfl⟩
  · cases h

/-- Whatever the decided format, a dispatched record is format-specific
(0.95) or generic (0.70). -/
theorem dispatchConf (sc : String) (fmt1 : Option String) (m : Option String)
    (row : List (Option String)) (q : PreRec)
    (h : dispatchRow sc fmt1 m row = some q) :
    q.confidence = mkRat 95 100 ∨ q.confidence = mkRat 7 10 := by
  unfold dispatchRow at h
  split at h
  · exact Or.inl (repoRowConf row sc m q h)
  · split at h
    · exact Or.inl (judRowConf row sc q h)
    · split at h
      · exact Or.inl (upsetRowConf row sc m q h)
      · exact Or.inr (genRowConf row sc m q h)

/-- Every record `processRow` emits that was not already present comes from
the dispatcher via `finishRecord`. -/
theorem processRowNewRecord (sc stype : String) (sdate : Option String) (year : Nat)
    (pn ri : Nat) (ptext : String) (st : ParseState) (row : List (Option String))
    (p : PRecord)
    (hp : p ∈ (processRow sc stype sdate year pn ri ptext st row).props) :
    p ∈ st.props ∨
      ∃ fmt1 q, dispatchRow sc fmt1 st.municipality row = some q ∧
        p = finishRecord stype sdate year row q := by
  unfold processRow at hp
  split at hp
  · exact Or.inl hp
  · split at hp
    · rcases prrNewRecord sc stype sdate year st row _ _ p hp with h | ⟨q, hq, hpq⟩
      · exact Or.inl h
      · exact Or.inr ⟨_, q, hq, hpq⟩
    · rcases prrNewRecord sc stype sdate year st row _ _ p hp with h | ⟨q, hq, hpq⟩
      · exact Or.inl h
      · exact Or.inr ⟨_, q, hq, hpq⟩

/-- One row preserves the confidence-tier invariant. -/
theorem rowConfTier (sc stype : String) (sdate : Option String) (year : Nat)
    (pn ri : Nat) (ptext : String) (st : ParseState) (row : List (Option String))
    (h : ∀ p ∈ st.props, confTier p) :
    ∀ p ∈ (processRow sc stype sdate year pn ri ptext st row).props, confTier p := by
  intro p hp
  rcases processRowNewRecord sc stype sdate year pn ri ptext st row p hp with
    h1 | ⟨fmt1, q, hq, hpq⟩
  · exact h p h1
  · rcases dispatchConf sc fmt1 st.municipality row q hq with hc | hc
    · exact Or.inl (by rw [hpq]; exact hc)
    · exact Or.inr (Or.inl (by rw [hpq]; exact hc))

/-- A table preserves the confidence-tier invariant. -/
theorem rowsConfTier (sc stype : String) (sdate : Option String) (year : Nat)
    (pn : Nat) (ptext : String) :
    ∀ (rows : List (List (Option String))) (i : Nat) (st : ParseState),
      (∀ p ∈ st.props, confTier p) →
      ∀ p ∈ (processRows sc stype sdate year pn ptext i st rows).props, confTier p := by
  intro rows
  induction rows with
  | nil => intro i st h p hp; exact h p hp
  | cons r rs ih =>
    intro i st h p hp
    exact ih (i + 1) _ (rowConfTier sc stype sdate year pn i ptext st r h) p hp

/-- The tables of one page preserve the confidence-tier invariant. -/
theorem tablesConfTier (sc stype : String) (sdate : Option String) (year : Nat)
    (pn : Nat) (ptext : String) :
    ∀ (ts : List (List (List (Option String)))) (st : ParseState),
      (∀ p ∈ st.props, confTier p) →
      ∀ p ∈ (processTables sc stype sdate year pn ptext st ts).props, confTier p := by
  intro ts
  induction ts with
  | nil => intro st h p hp; exact h p hp
  | cons t ts ih =>
    intro st h p hp
    exact ih _ (rowsConfTier sc stype sdate year pn ptext t 0 st h) p hp

/-- The bare-text scan preserves the confidence-tier invariant. -/
theorem bareConfTier (sc stype : String) (sdate : Option String) (year : Nat) :
    ∀ (lines : List String) (st : ParseState),
      (∀ p ∈ st.props, confTier p) →
      ∀ p ∈ (bareLines sc stype sdate year st lines).props, confTier p := by
  intro lines
  induction lines with
  | nil => intro st h p hp; exact h p hp
  | cons l ls ih =>
    intro st h p hp
    unfold bareLines at hp
    cases hb : bareRecord sc stype sdate year l with
    | none => rw [hb] at hp; exact ih st h p hp
    | some r =>
      rw [hb] at hp
      refine ih _ ?_ p hp
      intro q hq
      simp only [List.mem_append, List.mem_singleton] at hq
      rcases hq with hq | hq
      · exact h q hq
      · right; right
        rw [hq]
        exact (bareRecShape sc stype sdate year l r hb).2.2.2

/-- A whole document preserves the confidence-tier invariant. -/
theorem auxConfTier (sc stype : String) (sdate : Option String) (year : Nat) :
    ∀ (doc : List Page) (pn : Nat) (st : ParseState),
      (∀ p ∈ st.props, confTier p) →
      ∀ p ∈ (parse_pdfAux sc stype sdate year pn st doc).props, confTier p := by
  intro doc
  induction doc with
  | nil => intro pn st h p hp; exact h p hp
  | cons pg pgs ih =>
    intro pn st h p hp
    refine ih (pn + 1) _ ?_ p hp
    unfold processPage
    split
    · exact tablesConfTier sc stype sdate year pn pg.text pg.tables st h
    · split
      · exact bareConfTier sc stype sdate year _ st h
      · exact h

/-- C6: every record a document parse emits has a parser-path confidence —
0.95 for the repository/judicial/upset parsers, 0.70 for the generic
fallback, and 0.50 (inside [0.5, 0.6]) for the bare-text fallback — all of
them inside [0, 1], and the tiers are strictly ordered. -/
theorem c6_confidence_tiers (doc : List Page) (sc stype : String)
    (sdate : Option String) (year : Nat) (p : PRecord)
    (hp : p ∈ parse_pdf doc sc stype sdate year) :
    (p.confidence = mkRat 95 100 ∨ p.confidence = mkRat 7 10 ∨
      (mkRat 1 2 ≤ p.confidence ∧ p.confidence ≤ mkRat 6 10)) ∧
    (0 ≤ p.confidence ∧ p.confidence ≤ 1) ∧
    (∀ row sc' m q, parse_repository_row row sc' m = some q →
      q.confidence = mkRat 95 100) ∧
    (∀ row sc' q, parse_judicial_row row sc' = some q →
      q.confidence = mkRat 95 100) ∧
    (∀ row sc' m q, parse_upset_row row sc' m = some q →
      q.confidence = mkRat 95 100) ∧
    (∀ row sc' m q, parse_generic_row row sc' m = some q →
      q.confidence = mkRat 7 10) ∧
    (∀ sc' stype' sdate' year' line r,
      bareRecord sc' stype' sdate' year' line = some r →
      r.confidence = mkRat 1 2) ∧
    (mkRat 7 10 < mkRat 95 100 ∧ mkRat 6 10 < mkRat 7 10) := by
  have htier : confTier p :=
    auxConfTier sc stype sdate year doc 1 ⟨none, none, []⟩ (by intro q hq; cases hq) p hp
  refine ⟨?_, ?_, ?_, ?_, ?_, ?_, ?_, by decide, by decide⟩
  · rcases htier with h | h | h
    · exact Or.inl h
    · exact Or.inr (Or.inl h)
    · exact Or.inr (Or.inr ⟨by rw [h], by rw [h]; decide⟩)
  · rcases htier with h | h | h <;> rw [h] <;> exact ⟨by decide, by decide⟩
  · exact fun row sc' m q h => repoRowConf row sc' m q h
  · exact fun row sc' q h => judRowConf row sc' q h
  · exact fun row sc' m q h => upsetRowConf row sc' m q h
  · exact fun row sc' m q h => genRowConf row sc' m q h
  · exact fun sc' stype' sdate' year' line r h =>
      (bareRecShape sc' stype' sdate' year' line r h).2.2.2

/-- Witness for C6 at the concrete bare-text document and its record. -/
theorem c6_witness :
    recBareParcel ∈ parse_pdf docBareParcel "PA" "upset" none 2026 ∧
    (0 ≤ recBareParcel.confidence ∧ recBareParcel.confidence ≤ 1) :=
  ⟨by decide,
   (c6_confidence_tiers docBareParcel "PA" "upset" none 2026 recBareParcel
      (by decide)).2.1⟩

/-- With no decided format the dispatcher is the generic parser. -/
theorem dispatchNone (sc : String) (m : Option String) (row : List (Option String)) :
    dispatchRow sc none m row = parse_generic_row row sc m := rfl

/-- A row outside the detection position (or too short) keeps the
format-undecided invariant: format stays `none` and any new record is
generic. -/
theorem rowLooseInv (sc stype : String) (sdate : Option String) (year : Nat)
    (pn ri : Nat) (ptext : String) (st : ParseState) (row : List (Option String))
    (hside : ¬(pn = 1 ∧ ri = 0) ∨ row.length < 3)
    (h : st.fmt = none ∧ ∀ p ∈ st.props, looseTier p) :
    (processRow sc stype sdate year pn ri ptext st row).fmt = none ∧
      ∀ p ∈ (processRow sc stype sdate year pn ri ptext st row).props, looseTier p := by
  unfold processRow
  by_cases hlen : row.length < 3
  · rw [if_pos hlen]; exact h
  · have hside' : ¬(pn = 1 ∧ ri = 0) := by
      rcases hside with h1 | h1
      · exact h1
      · exact absurd h1 hlen
    rw [if_neg hlen, if_neg (fun hx => hside' ⟨hx.1, hx.2.1⟩)]
    refine ⟨by rw [prrFmt]; exact h.1, ?_⟩
    intro p hp
    rcases prrNewRecord sc stype sdate year st row st.fmt false p hp with
      h1 | ⟨q, hq, hpq⟩
    · exact h.2 p h1
    · rw [h.1, dispatchNone] at hq
      left
      rw [hpq]
      exact genRowConf row sc st.municipality q hq

/-- Rows from index ≥ 1 (or on pages after the first) keep the
format-undecided invariant. -/
theorem rowsLooseInv (sc stype : String) (sdate : Option String) (year : Nat)
    (pn : Nat) (ptext : String) :
    ∀ (rows : List (List (Option String))) (i : Nat) (st : ParseState),
      (pn ≠ 1 ∨ 1 ≤ i) →
      (st.fmt = none ∧ ∀ p ∈ st.props, looseTier p) →
      (processRows sc stype sdate year pn ptext i st rows).fmt = none ∧
        ∀ p ∈ (processRows sc stype sdate year pn ptext i st rows).props, looseTier p := by
  intro rows
  induction rows with
  | nil => intro i st _ h; exact h
  | cons r rs ih =>
    intro i st hi h
    refine ih (i + 1) _ (Or.inr (by omega)) ?_
    refine rowLooseInv sc stype sdate year pn i ptext st r ?_ h
    left
    rintro ⟨hpn, hri⟩
    rcases hi with h1 | h1
    · exact h1 hpn
    · omega

/-- A table whose first row is short keeps the format-undecided invariant on
page 1. -/
theorem tableLooseInvFirstShort (sc stype : String) (sdate : Option String) (year : Nat)
    (ptext : String) (t : List (List (Option String))) (st : ParseState)
    (hfirst : ∀ r ∈ t.take 1, r.length < 3)
    (h : st.fmt = none ∧ ∀ p ∈ st.props, looseTier p) :
    (processRows sc stype sdate year 1 ptext 0 st t).fmt = none ∧
      ∀ p ∈ (processRows sc stype sdate year 1 ptext 0 st t).props, looseTier p := by
  cases t with
  | nil => exact h
  | cons r rs =>
    have hr : r.length < 3 := hfirst r (by simp)
    unfold processRows
    rw [show processRow sc stype sdate year 1 0 ptext st r = st from by
      unfold processRow; rw [if_pos hr]]
    exact rowsLooseInv sc stype sdate year 1 ptext rs 1 st (Or.inr le_rfl) h

/-- Page-1 tables all of whose first rows are short keep the invariant. -/
theorem tablesLooseInv1 (sc stype : String) (sdate : Option String) (year : Nat)
    (ptext : String) :
    ∀ (ts : List (List (List (Option String)))) (st : ParseState),
      (∀ t ∈ ts, ∀ r ∈ t.take 1, r.length < 3) →
      (st.fmt = none ∧ ∀ p ∈ st.props, looseTier p) →
      (processTables sc stype sdate year 1 ptext st ts).fmt = none ∧
        ∀ p ∈ (processTables sc stype sdate year 1 ptext st ts).props, looseTier p := by
  intro ts
  induction ts with
  | nil => intro st _ h; exact h
  | cons t ts ih =>
    intro st hts h
    refine ih _ (fun t' ht' => hts t' (by simp [ht'])) ?_
    exact tableLooseInvFirstShort sc stype sdate year ptext t st
      (hts t (by simp)) h

/-- Tables on pages after the first keep the invariant. -/
theorem tablesLooseInvN (sc stype : String) (sdate : Option String) (year : Nat)
    (pn : Nat) (ptext : String) (hpn : pn ≠ 1) :
    ∀ (ts : List (List (List (Option String)))) (st : ParseState),
      (st.fmt = none ∧ ∀ p ∈ st.props, looseTier p) →
      (processTables sc stype sdate year pn ptext st ts).fmt = none ∧
        ∀ p ∈ (processTables sc stype sdate year pn ptext st ts).props, looseTier p := by
  intro ts
  induction ts with
  | nil => intro st h; exact h
  | cons t ts ih =>
    intro st h
    exact ih _ (rowsLooseInv sc stype sdate year pn ptext t 0 st (Or.inl hpn) h)

/-- The bare-text scan keeps the invariant. -/
theorem bareLooseInv (sc stype : String) (sdate : Option String) (year : Nat) :
    ∀ (lines : List String) (st : ParseState),
      (st.fmt = none ∧ ∀ p ∈ st.props, looseTier p) →
      (bareLines sc stype sdate year st lines).fmt = none ∧
        ∀ p ∈ (bareLines sc stype sdate year st lines).props, looseTier p := by
  intro lines
  induction lines with
  | nil => intro st h; exact h
  | cons l ls ih =>
    intro st h
    unfold bareLines
    cases hb : bareRecord sc stype sdate year l with
    | none => exact ih st h
    | some r =>
      refine ih _ ⟨h.1, ?_⟩
      intro q hq
      simp only [List.mem_append, List.mem_singleton] at hq
      rcases hq with hq | hq
      · exact h.2 q hq
      · right
        rw [hq]
        exact (bareRecShape sc stype sdate year l r hb).2.2.2

/-- Pages after the first keep the invariant. -/
theorem auxLooseInv (sc stype : String) (sdate : Option String) (year : Nat) :
    ∀ (pgs : List Page) (pn : Nat) (st : ParseState), 2 ≤ pn →
      (st.fmt = none ∧ ∀ p ∈ st.props, looseTier p) →
      (parse_pdfAux sc stype sdate year pn st pgs).fmt = none ∧
        ∀ p ∈ (parse_pdfAux sc stype sdate year pn st pgs).props, looseTier p := by
  intro pgs
  induction pgs with
  | nil => intro pn st _ h; exact h
  | cons pg pgs ih =>
    intro pn st hpn h
    refine ih (pn + 1) _ (by omega) ?_
    unfold processPage
    split
    · exact tablesLooseInvN sc stype sdate year pn pg.text (by omega) pg.tables st h
    · split
      · exact bareLooseInv sc stype sdate year _ st h
      · exact h

/-- C10 amended: if every table on page 1 opens with a row of fewer than
three cells (in particular if page 1 has no tables), format detection never
fires: the frozen format stays undecided for the whole document, the
caller's sale-type hint is never substituted, and every emitted record comes
from the generic fallback (0.70) or the bare-text fallback (0.50).  The
original claim's stronger reading — that a short first row of the *first*
table alone suffices — is refuted by `docSecondTable`. -/
theorem c10_amended_detection_skipped (doc : List Page) (sc stype : String)
    (sdate : Option String) (year : Nat)
    (h1 : ∀ pg ∈ doc.take 1, ∀ t ∈ pg.tables, ∀ r ∈ t.take 1, r.length < 3) :
    (parse_pdfFinal doc sc stype sdate year).fmt = none ∧
    ∀ p ∈ parse_pdf doc sc stype sdate year,
      p.confidence = mkRat 7 10 ∨ p.confidence = mkRat 1 2 := by
  cases doc with
  | nil => exact ⟨rfl, by intro p hp; cases hp⟩
  | cons pg pgs =>
    have hinit : ((⟨none, none, []⟩ : ParseState).fmt = none ∧
        ∀ p ∈ (⟨none, none, []⟩ : ParseState).props, looseTier p) :=
      ⟨rfl, by intro p hp; cases hp⟩
    have hpage :
        (processPage sc stype sdate year 1 ⟨none, none, []⟩ pg).fmt = none ∧
          ∀ p ∈ (processPage sc stype sdate year 1 ⟨none, none, []⟩ pg).props,
            looseTier p := by
      unfold processPage
      split
      · exact tablesLooseInv1 sc stype sdate year pg.text pg.tables ⟨none, none, []⟩
          (h1 pg (by simp)) hinit
      · split
        · exact bareLooseInv sc stype sdate year _ ⟨none, none, []⟩ hinit
        · exact hinit
    have hfin := auxLooseInv sc stype sdate year pgs 2 _ le_rfl hpage
    exact ⟨hfin.1, hfin.2⟩

/-- Witness for the amended C10: the two-row document whose first row is
short yields exactly one generic record and no decided format. -/
theorem c10_witness :
    (parse_pdfFinal docShortFirstGeneric "PA" "unknown" none 2026).fmt = none ∧
    ∀ p ∈ parse_pdf docShortFirstGeneric "PA" "unknown" none 2026,
      p.confidence = mkRat 7 10 ∨ p.confidence = mkRat 1 2 :=
  c10_amended_detection_skipped docShortFirstGeneric "PA" "unknown" none 2026
    (by decide)

/-- The row pipeline never removes records. -/
theorem prrPropsNe (sc stype : String) (sdate : Option String) (year : Nat)
    (st : ParseState) (row : List (Option String)) (fmt1 : Option String) (d : Bool)
    (h : st.props ≠ []) :
    (processRowRest sc stype sdate year st row fmt1 d).props ≠ [] := by
  unfold processRowRest
  split
  · exact h
  · split
    · exact h
    · split
      · exact h
      · split
        · exact h
        · simp

/-- `processRow` never removes records. -/
theorem processRowPropsNe (sc stype : String) (sdate : Option String) (year : Nat)
    (pn ri : Nat) (ptext : String) (st : ParseState) (row : List (Option String))
    (h : st.props ≠ []) :
    (processRow sc stype sdate year pn ri ptext st row).props ≠ [] := by
  unfold processRow
  split
  · exact h
  · split
    · exact prrPropsNe sc stype sdate year st row _ _ h
    · exact prrPropsNe sc stype sdate year st row _ _ h

/-- A table never removes records. -/
theorem processRowsPropsNe (sc stype : String) (sdate : Option String) (year : Nat)
    (pn : Nat) (ptext : String) :
    ∀ (rows : List (List (Option String))) (i : Nat) (st : ParseState),
      st.props ≠ [] →
      (processRows sc stype sdate year pn ptext i st rows).props ≠ [] := by
  intro rows
  induction rows with
  | nil => intro i st h; exact h
  | cons r rs ih =>
    intro i st h
    exact ih (i + 1) _ (processRowPropsNe sc stype sdate year pn i ptext st r h)

/-- Page tables never remove records. -/
theorem processTablesPropsNe (sc stype : String) (sdate : Option String) (year : Nat)
    (pn : Nat) (ptext : String) :
    ∀ (ts : List (List (List (Option String)))) (st : ParseState),
      st.props ≠ [] →
      (processTables sc stype sdate year pn ptext st ts).props ≠ [] := by
  intro ts
  induction ts with
  | nil => intro st h; exact h
  | cons t ts ih =>
    intro st h
    exact ih _ (processRowsPropsNe sc stype sdate year pn ptext t 0 st h)

/-- The bare-text scan never removes records. -/
theorem bareLinesPropsNe (sc stype : String) (sdate : Option String) (year : Nat) :
    ∀ (lines : List String) (st : ParseState),
      st.props ≠ [] →
      (bareLines sc stype sdate year st lines).props ≠ [] := by
  intro lines
  induction lines with
  | nil => intro st h; exact h
  | cons l ls ih =>
    intro st h
    unfold bareLines
    cases hb : bareRecord sc stype sdate year l with
    | none => exact ih st h
    | some r => exact ih _ (by simp)

/-- A page never removes records. -/
theorem processPagePropsNe (sc stype : String) (sdate : Option String) (year : Nat)
    (pn : Nat) (st : ParseState) (pg : Page) (h : st.props ≠ []) :
    (processPage sc stype sdate year pn st pg).props ≠ [] := by
  unfold processPage
  split
  · exact processTablesPropsNe sc stype sdate year pn pg.text pg.tables st h
  · split
    · exact bareLinesPropsNe sc stype sdate year _ st h
    · exact h

/-- Later pages never remove records. -/
theorem auxPropsNe (sc stype : String) (sdate : Option String) (year : Nat) :
    ∀ (pgs : List Page) (pn : Nat) (st : ParseState),
      st.props ≠ [] →
      (parse_pdfAux sc stype sdate year pn st pgs).props ≠ [] := by
  intro pgs
  induction pgs with
  | nil => intro pn st h; exact h
  | cons pg pgs ih =>
    intro pn st h
    exact ih (pn + 1) _ (processPagePropsNe sc stype sdate year pn st pg h)

/-- A line with a valid parcel id makes the bare-text scan emit a record. -/
theorem bareLinesHit (sc stype : String) (sdate : Option String) (year : Nat) :
    ∀ (lines : List String) (st : ParseState) (line : String),
      line ∈ lines → (parse_parcel_id line sc).isSome = true →
      (bareLines sc stype sdate year st lines).props ≠ [] := by
  intro lines
  induction lines with
  | nil => intro st line hmem; cases hmem
  | cons l ls ih =>
    intro st line hmem hsome
    unfold bareLines
    cases hb : bareRecord sc stype sdate year l with
    | none =>
      rcases List.mem_cons.mp hmem with hl | hl
      · exfalso
        unfold bareRecord at hb
        rw [hl] at hsome
        cases hp : parse_parcel_id l sc with
        | none => rw [hp] at hsome; cases hsome
        | some pid => rw [hp] at hb; cases hb
      · exact ih st line hl hsome
    | some r => exact bareLinesPropsNe sc stype sdate year ls _ (by simp)

/-- The bare-text scan only emits bare-shaped records. -/
theorem bareLinesShape (sc stype : String) (sdate : Option String) (year : Nat) :
    ∀ (lines : List String) (st : ParseState),
      (∀ p ∈ st.props, bareShape p) →
      ∀ p ∈ (bareLines sc stype sdate year st lines).props, bareShape p := by
  intro lines
  induction lines with
  | nil => intro st h p hp; exact h p hp
  | cons l ls ih =>
    intro st h p hp
    unfold bareLines at hp
    cases hb : bareRecord sc stype sdate year l with
    | none => rw [hb] at hp; exact ih st h p hp
    | some r =>
      rw [hb] at hp
      refine ih _ ?_ p hp
      intro q hq
      simp only [List.mem_append, List.mem_singleton] at hq
      rcases hq with hq | hq
      · exact h q hq
      · rw [hq]
        exact bareRecShape sc stype sdate year l r hb

/-- On a document without tables, every emitted record is bare-shaped. -/
theorem auxBareShape (sc stype : String) (sdate : Option String) (year : Nat) :
    ∀ (pgs : List Page) (pn : Nat) (st : ParseState),
      (∀ pg ∈ pgs, pg.tables = []) →
      (∀ p ∈ st.props, bareShape p) →
      ∀ p ∈ (parse_pdfAux sc stype sdate year pn st pgs).props, bareShape p := by
  intro pgs
  induction pgs with
  | nil => intro pn st _ h p hp; exact h p hp
  | cons pg pgs ih =>
    intro pn st hnt h p hp
    refine ih (pn + 1) _ (fun pg' hpg' => hnt pg' (by simp [hpg'])) ?_ p hp
    unfold processPage
    rw [hnt pg (by simp)]
    simp only [ne_eq, not_true_eq_false, if_false]
    split
    · exact bareLinesShape sc stype sdate year _ st h
    · exact h

/-- On a document without tables, a parcel-bearing line guarantees output. -/
theorem auxBareHit (sc stype : String) (sdate : Option String) (year : Nat) :
    ∀ (pgs : List Page) (pn : Nat) (st : ParseState),
      (∀ pg ∈ pgs, pg.tables = []) →
      ((∃ pg, pg ∈ pgs ∧ ∃ line,
          line ∈ (splitOnNl pg.text.data).map String.mk ∧
          (parse_parcel_id line sc).isSome = true) ∨ st.props ≠ []) →
      (parse_pdfAux sc stype sdate year pn st pgs).props ≠ [] := by
  intro pgs
  induction pgs with
  | nil =>
    intro pn st _ hh
    rcases hh with ⟨pg, hpg, _⟩ | hh
    · cases hpg
    · exact hh
  | cons pg pgs ih =>
    intro pn st hnt hh
    rcases hh with ⟨pg', hpg', line, hline, hsome⟩ | hne
    · rcases List.mem_cons.mp hpg' with heq | htl
      · subst heq
        have htext : pg'.text ≠ "" := by
          intro hx
          rw [hx] at hline
          simp only [splitOnNl, List.map, List.mem_singleton] at hline
          rw [hline] at hsome
          cases hsome
        refine ih (pn + 1) _ (fun q hq => hnt q (by simp [hq])) (Or.inr ?_)
        unfold processPage
        rw [hnt pg' (by simp)]
        simp only [ne_eq, not_true_eq_false, if_false, if_pos htext]
        exact bareLinesHit sc stype sdate year _ ⟨st.municipality, st.fmt, st.props⟩
          line hline hsome
      · exact ih (pn + 1) _ (fun q hq => hnt q (by simp [hq]))
          (Or.inl ⟨pg', htl, line, hline, hsome⟩)
    · exact ih (pn + 1) _ (fun q hq => hnt q (by simp [hq]))
        (Or.inr (processPagePropsNe sc stype sdate year pn st pg hne))

/-- C8 amended: for a document none of whose pages yields tables, if some
page has a *line* on which `parse_parcel_id` succeeds (containing a pattern
match and no rejected keyword), the parse emits at least one record, and
every emitted record has only parcel id and raw text populated — address,
owner and amount absent — with confidence 0.50, inside [0.5, 0.6].  The
original claim's weaker premise — any pattern-matching substring of the page
text — is refuted by `docBareControl`, whose matching line also contains the
rejected keyword CONTROL. -/
theorem c8_amended_bare_fallback (doc : List Page) (sc stype : String)
    (sdate : Option String) (year : Nat)
    (hnotab : ∀ pg ∈ doc, pg.tables = [])
    (hline : ∃ pg, pg ∈ doc ∧ ∃ line,
      line ∈ (splitOnNl pg.text.data).map String.mk ∧
      (parse_parcel_id line sc).isSome = true) :
    parse_pdf doc sc stype sdate year ≠ [] ∧
    ∀ p ∈ parse_pdf doc sc stype sdate year,
      p.address = none ∧ p.owner = none ∧ p.total_due = none ∧
        p.confidence = mkRat 1 2 ∧
        mkRat 1 2 ≤ p.confidence ∧ p.confidence ≤ mkRat 6 10 := by
  constructor
  · exact auxBareHit sc stype sdate year doc 1 ⟨none, none, []⟩ hnotab (Or.inl hline)
  · intro p hp
    have hs := auxBareShape sc stype sdate year doc 1 ⟨none, none, []⟩ hnotab
      (by intro q hq; cases hq) p hp
    exact ⟨hs.1, hs.2.1, hs.2.2.1, hs.2.2.2,
      by rw [hs.2.2.2], by rw [hs.2.2.2]; decide⟩

/-- Witness for the amended C8 at the concrete tableless document. -/
theorem c8_witness :
    parse_pdf docBareParcel "PA" "upset" none 2026 ≠ [] ∧
    ∀ p ∈ parse_pdf docBareParcel "PA" "upset" none 2026,
      p.address = none ∧ p.owner = none ∧ p.total_due = none ∧
        p.confidence = mkRat 1 2 ∧
        mkRat 1 2 ≤ p.confidence ∧ p.confidence ≤ mkRat 6 10 :=
  c8_amended_bare_fallback docBareParcel "PA" "upset" none 2026 (by decide)
    ⟨⟨"07.08-09..-123.45-678", []⟩, by decide,
     "07.08-09..-123.45-678", by decide, by decide⟩

/-- A single-uppercase-letter word has length one. -/
theorem singleUpper_length (w : List Char) (h : singleUpper w = true) : w.length = 1 := by
  cases w with
  | nil => simp [singleUpper] at h
  | cons c t =>
    cases t with
    | nil => rfl
    | cons d t' => simp [singleUpper] at h

/-- A word whose length is not one is not a single uppercase letter. -/
theorem singleUpper_false_of_len (w : List Char) (h : w.length ≠ 1) :
    singleUpper w = false := by
  cases w with
  | nil => rfl
  | cons c t =>
    cases t with
    | nil => exact absurd rfl h
    | cons d t' => rfl

/-- Whitespace characters are not word characters. -/
theorem isSpace_not_word (c : Char) (h : isSpaceC c = true) : isWordChar c = false := by
  have h2 : c = ' ' ∨ c = '\t' ∨ c = '\n' ∨ c = '\x0d' ∨ c = '\x0b' ∨ c = '\x0c' := by
    unfold isSpaceC at h
    simp only [Bool.or_eq_true, decide_eq_true_eq] at h
    tauto
  rcases h2 with h2 | h2 | h2 | h2 | h2 | h2 <;> subst h2 <;> rfl

/-- Word characters are not whitespace. -/
theorem word_not_space (c : Char) (h : isWordChar c = true) : isSpaceC c = false := by
  cases hs : isSpaceC c
  · rfl
  · rw [isSpace_not_word c hs] at h
    cases h

/-- Uppercase letters are word characters. -/
theorem upper_isWord (c : Char) (h : isUpperAZ c = true) : isWordChar c = true := by
  unfold isWordChar
  rw [h]
  rfl

/-- `tokenSplit` always produces at least one piece. -/
theorem tokenSplit_ne_nil : ∀ cs : List Char, tokenSplit cs ≠ []
  | [] => by simp [tokenSplit]
  | c :: cs => by
    unfold tokenSplit
    split
    · simp
    · cases hts : tokenSplit cs with
      | nil => simp
      | cons w ws => simp

/-- Every character of a `tokenSplit` piece is a non-whitespace character of
the input. -/
theorem tokenSplit_chars :
    ∀ cs : List Char, ∀ w ∈ tokenSplit cs, ∀ c ∈ w, c ∈ cs ∧ isSpaceC c = false := by
  intro cs
  induction cs with
  | nil =>
    intro w hw c hc
    simp only [tokenSplit, List.mem_singleton] at hw
    subst hw
    cases hc
  | cons a cs ih =>
    intro w hw c hc
    unfold tokenSplit at hw
    cases ha : isSpaceC a with
    | true =>
      rw [if_pos ha] at hw
      rcases List.mem_cons.mp hw with h | h
      · subst h; cases hc
      · have h2 := ih w h c hc
        exact ⟨List.mem_cons_of_mem a h2.1, h2.2⟩
    | false =>
      rw [if_neg (by rw [ha]; exact Bool.false_ne_true)] at hw
      cases hts : tokenSplit cs with
      | nil => exact absurd hts (tokenSplit_ne_nil cs)
      | cons w0 ws =>
        rw [hts] at hw
        rcases List.mem_cons.mp hw with h | h
        · subst h
          rcases List.mem_cons.mp hc with h | h
          · subst h
            exact ⟨List.mem_cons_self c (cs), ha⟩
          · have h2 := ih w0 (by rw [hts]; exact List.mem_cons_self w0 ws) c h
            exact ⟨List.mem_cons_of_mem a h2.1, h2.2⟩
        · have h2 := ih w (by rw [hts]; exact List.mem_cons_of_mem w0 h) c hc
          exact ⟨List.mem_cons_of_mem a h2.1, h2.2⟩

/-- On a punctuation-free input every token is a non-empty word-character
word. -/
theorem tokens_goodTok (cs : List Char)
    (hcs : ∀ c ∈ cs, isWordChar c = true ∨ isSpaceC c = true) :
    goodToks (tokens cs) := by
  intro w hw
  unfold tokens at hw
  have h1 := List.of_mem_filter hw
  have h2 := List.mem_of_mem_filter hw
  refine ⟨of_decide_eq_true h1, ?_⟩
  intro c hc
  have h3 := tokenSplit_chars cs w h2 c hc
  rcases hcs c h3.1 with h | h
  · exact h
  · have h4 := h3.2
    rw [h] at h4
    cases h4

/-- Prepending a non-whitespace word extends the first `tokenSplit` piece. -/
theorem tokenSplit_append (w : List Char) :
    ∀ (l : List Char) (h0 : List Char) (t : List (List Char)),
      (∀ c ∈ w, isSpaceC c = false) → tokenSplit l = h0 :: t →
      tokenSplit (w ++ l) = (w ++ h0) :: t := by
  induction w with
  | nil => intro l h0 t _ hl; simpa using hl
  | cons c w' ih =>
    intro l h0 t hns hl
    have hc : isSpaceC c = false := hns c (List.mem_cons_self c w')
    have hrec := ih l h0 t (fun d hd => hns d (List.mem_cons_of_mem c hd)) hl
    show tokenSplit (c :: (w' ++ l)) = ((c :: w') ++ h0) :: t
    unfold tokenSplit
    rw [if_neg (by rw [hc]; exact Bool.false_ne_true), hrec]
    rfl

/-- Tokenising a single-space join of good words recovers the words. -/
theorem tokens_joinSp : ∀ l : List (List Char), goodToks l → tokens (joinSp l) = l := by
  intro l
  induction l with
  | nil => intro _; rfl
  | cons w ws ih =>
    intro h
    have hw := h w (List.mem_cons_self w ws)
    have hwns : ∀ c ∈ w, isSpaceC c = false :=
      fun c hc => word_not_space c (hw.2 c hc)
    cases ws with
    | nil =>
      show tokens (joinSp [w]) = [w]
      have hts : tokenSplit (w ++ []) = (w ++ []) :: [] :=
        tokenSplit_append w [] [] [] hwns rfl
      rw [List.append_nil] at hts
      unfold tokens
      show List.filter (fun u => u ≠ []) (tokenSplit w) = [w]
      rw [hts, List.filter_cons_of_pos (by simpa using hw.1), List.filter_nil]
    | cons v vs =>
      have hrest : tokens (joinSp (v :: vs)) = v :: vs :=
        ih (fun u hu => h u (List.mem_cons_of_mem w hu))
      cases hts : tokenSplit (joinSp (v :: vs)) with
      | nil => exact absurd hts (tokenSplit_ne_nil _)
      | cons h0 t0 =>
        have hsp : tokenSplit (' ' :: joinSp (v :: vs)) = [] :: h0 :: t0 := by
          unfold tokenSplit
          rw [if_pos (show isSpaceC ' ' = true from rfl), hts]
        have happ :=
          tokenSplit_append w (' ' :: joinSp (v :: vs)) [] (h0 :: t0) hwns hsp
        show tokens (w ++ ' ' :: joinSp (v :: vs)) = w :: v :: vs
        unfold tokens
        rw [happ, List.append_nil,
          List.filter_cons_of_pos (by simpa using hw.1)]
        have : List.filter (fun u => u ≠ []) (h0 :: t0) = v :: vs := by
          have := hrest
          unfold tokens at this
          rw [hts] at this
          exact this
        rw [this]

/-- The merge loop only produces non-empty word-character words from such
words. -/
theorem mergeAux_goodTok :
    ∀ (l : List (List Char)) (s : Option (List Char × Nat)),
      goodToks l →
      (∀ acc n, s = some (acc, n) → acc ≠ [] ∧ ∀ c ∈ acc, isWordChar c = true) →
      goodToks (mergeAux s l) := by
  intro l
  induction l with
  | nil =>
    intro s hl hs w hw
    cases s with
    | none => cases hw
    | some p =>
      obtain ⟨acc, n⟩ := p
      simp only [mergeAux, List.mem_singleton] at hw
      rw [hw]
      exact hs acc n rfl
  | cons w0 rest ih =>
    intro s hl hs w hw
    have hw0 := hl w0 (List.mem_cons_self w0 rest)
    have hlr : goodToks rest := fun u hu => hl u (List.mem_cons_of_mem w0 hu)
    cases s with
    | none =>
      unfold mergeAux at hw
      split at hw
      · exact ih (some (w0, 1)) hlr (fun acc n heq => by cases heq; exact hw0) w hw
      · rcases List.mem_cons.mp hw with h | h
        · subst h; exact hw0
        · exact ih none hlr (fun acc n heq => by cases heq) w h
    | some p =>
      obtain ⟨acc, n⟩ := p
      have hacc := hs acc n rfl
      unfold mergeAux at hw
      split at hw
      · refine ih (some (acc ++ w0, n + 1)) hlr (fun acc' n' heq => ?_) w hw
        cases heq
        refine ⟨by simp [hacc.1], ?_⟩
        intro c hc
        rcases List.mem_append.mp hc with h | h
        · exact hacc.2 c h
        · exact hw0.2 c h
      · split at hw
        · rcases List.mem_cons.mp hw with h | h
          · subst h
            refine ⟨by simp [hacc.1], ?_⟩
            intro c hc
            rcases List.mem_append.mp hc with h | h
            · exact hacc.2 c h
            · exact hw0.2 c h
          · exact ih none hlr (fun acc' n' heq => by cases heq) w h
        · rcases List.mem_cons.mp hw with h | h
          · subst h; exact hacc
          · rcases List.mem_cons.mp h with h | h
            · subst h; exact hw0
            · exact ih none hlr (fun acc' n' heq => by cases heq) w h

/-- The merge loop never leaves two single uppercase letters adjacent: the
collected run is emitted as one combined word, and an isolated single letter
is always followed by the non-single word that broke the run. -/
theorem mergeAux_noAdj :
    ∀ (l : List (List Char)) (s : Option (List Char × Nat)),
      (∀ acc n, s = some (acc, n) → acc.length = n ∧ 1 ≤ n) →
      noAdjSingles (mergeAux s l) := by
  intro l
  induction l with
  | nil =>
    intro s hs
    cases s with
    | none => exact List.chain'_nil
    | some p =>
      obtain ⟨acc, n⟩ := p
      exact List.chain'_singleton acc
  | cons w0 rest ih =>
    intro s hs
    cases s with
    | none =>
      simp only [mergeAux]
      split
      · rename_i hsu
        exact ih (some (w0, 1))
          (fun acc n heq => by cases heq; exact ⟨singleUpper_length w0 hsu, le_refl 1⟩)
      · rename_i hsu
        refine List.chain'_cons'.mpr ⟨?_, ih none (fun acc n heq => by cases heq)⟩
        intro b _ hc
        exact hsu hc.1
    | some p =>
      obtain ⟨acc, n⟩ := p
      have hinv := hs acc n rfl
      simp only [mergeAux]
      split
      · rename_i hsu
        refine ih (some (acc ++ w0, n + 1)) (fun acc' n' heq => ?_)
        cases heq
        refine ⟨?_, by omega⟩
        rw [List.length_append, hinv.1, singleUpper_length w0 hsu]
      · split
        · rename_i hsu habs
          refine List.chain'_cons'.mpr ⟨?_, ih none (fun acc' n' heq => by cases heq)⟩
          intro b _ hc
          have h2n : 2 ≤ n := by
            simp only [Bool.and_eq_true, decide_eq_true_eq] at habs
            exact habs.1
          have hlen : (acc ++ w0).length ≠ 1 := by
            rw [List.length_append, hinv.1]
            omega
          rw [singleUpper_false_of_len (acc ++ w0) hlen] at hc
          cases hc.1
        · rename_i hsu habs
          refine List.chain'_cons'.mpr ⟨?_, ?_⟩
          · intro b hb
            simp only [List.head?_cons, Option.mem_some_iff] at hb
            subst hb
            intro hc
            exact hsu hc.2
          · refine List.chain'_cons'.mpr
              ⟨?_, ih none (fun acc' n' heq => by cases heq)⟩
            intro b _ hc
            exact hsu hc.1

/-- On a word list with no adjacent single uppercase letters the merge loop
is the identity. -/
theorem mergeAux_id : ∀ l : List (List Char), noAdjSingles l → mergeAux none l = l := by
  intro l
  induction l with
  | nil => intro _; rfl
  | cons w rest ih =>
    intro h
    unfold mergeAux
    split
    · rename_i hsu
      cases rest with
      | nil => rfl
      | cons w2 r2 =>
        have hrel : ¬(singleUpper w = true ∧ singleUpper w2 = true) :=
          (List.chain'_cons'.mp h).1 w2 (by simp)
        have hw2 : singleUpper w2 = false := by
          cases hx : singleUpper w2
          · rfl
          · exact absurd ⟨hsu, hx⟩ hrel
        have htail := ih (List.Chain'.tail h)
        have hstep : mergeAux none (w2 :: r2) = w2 :: mergeAux none r2 := by
          simp only [mergeAux]
          rw [if_neg (by rw [hw2]; exact Bool.false_ne_true)]
        rw [hstep] at htail
        have hr2 : mergeAux none r2 = r2 := by injection htail
        show mergeAux (some (w, 1)) (w2 :: r2) = w :: w2 :: r2
        simp only [mergeAux]
        rw [if_neg (by rw [hw2]; exact Bool.false_ne_true),
          if_neg (by simp), hr2]
    · exact congrArg (w :: ·) (ih (List.Chain'.tail h))

/-- Appending a five-plus-letter uppercase word never ends in a boundary
single letter: the last two characters are both uppercase. -/
theorem endsSingle_append_upper5 (a b : List Char) (hb : upperWord5 b = true) :
    endsSingleLetter (a ++ b) = false := by
  unfold upperWord5 at hb
  simp only [Bool.and_eq_true, decide_eq_true_eq, List.all_eq_true] at hb
  obtain ⟨hlen, hall⟩ := hb
  cases hbr : b.reverse with
  | nil =>
    exfalso
    have h0 : b.reverse.length = 0 := by rw [hbr]; rfl
    rw [List.length_reverse] at h0
    omega
  | cons c r1 =>
    cases r1 with
    | nil =>
      exfalso
      have h0 : b.reverse.length = 1 := by rw [hbr]; rfl
      rw [List.length_reverse] at h0
      omega
    | cons p rest =>
      unfold endsSingleLetter
      rw [List.reverse_append, hbr]
      show (isUpperAZ c && !isWordChar p) = false
      have hp : isUpperAZ p = true := by
        refine hall p (List.mem_reverse.mp ?_)
        rw [hbr]
        simp
      rw [upper_isWord p hp]
      simp

/-- A word-character word that ends in a boundary single letter is a single
uppercase letter. -/
theorem endsSingle_single (a : List Char)
    (hg : a ≠ [] ∧ ∀ c ∈ a, isWordChar c = true)
    (he : endsSingleLetter a = true) : singleUpper a = true := by
  unfold endsSingleLetter at he
  cases har : a.reverse with
  | nil => rw [har] at he; cases he
  | cons c r =>
    cases r with
    | nil =>
      have ha : a = [c] := by
        have h2 := congrArg List.reverse har
        simpa using h2
      rw [har] at he
      rw [ha]
      exact he
    | cons p rest =>
      rw [har] at he
      exfalso
      have hp : p ∈ a := by
        refine List.mem_reverse.mp ?_
        rw [har]
        simp
      have hw := hg.2 p hp
      simp only [Bool.and_eq_true, Bool.not_eq_true'] at he
      obtain ⟨h1, h2⟩ := he
      rw [hw] at h2
      cases h2

/-- An all-uppercase word that ends in a boundary single letter is a single
uppercase letter. -/
theorem endsSingle_upper_single (b : List Char)
    (hb : ∀ c ∈ b, isUpperAZ c = true) (hne : b ≠ [])
    (he : endsSingleLetter b = true) : singleUpper b = true :=
  endsSingle_single b ⟨hne, fun c hc => upper_isWord c (hb c hc)⟩ he

/-- The substitution pass only produces non-empty word-character words. -/
theorem spacedSub_goodTok : ∀ l, goodToks l → goodToks (spacedSub l) := by
  intro l
  induction l using spacedSub.induct with
  | case1 => intro h; exact h
  | case2 w => intro h; exact h
  | case3 a b t hp ih =>
    intro h w hw
    rw [show spacedSub (a :: b :: t) = (a ++ b) :: spacedSub t from by
      simp only [spacedSub]; rw [if_pos hp]] at hw
    rcases List.mem_cons.mp hw with hw | hw
    · subst hw
      have ha := h a (by simp)
      have hb := h b (by simp)
      refine ⟨by simp [ha.1], ?_⟩
      intro c hc
      rcases List.mem_append.mp hc with h1 | h1
      · exact ha.2 c h1
      · exact hb.2 c h1
    · exact ih (fun u hu =>
        h u (List.mem_cons_of_mem a (List.mem_cons_of_mem b hu))) w hw
  | case4 a b t hp ih =>
    intro h w hw
    rw [show spacedSub (a :: b :: t) = a :: spacedSub (b :: t) from by
      simp only [spacedSub]; rw [if_neg hp]] at hw
    rcases List.mem_cons.mp hw with hw | hw
    · rw [hw]; exact h a (by simp)
    · exact ih (fun u hu => h u (List.mem_cons_of_mem a hu)) w hw

/-- The head of the substituted list is the first word, possibly merged with
its successor. -/
theorem spacedSub_head (b : List Char) (t : List (List Char)) :
    (spacedSub (b :: t)).head? = some b ∨
      ∃ c t', t = c :: t' ∧ spacedPair b c = true ∧
        (spacedSub (b :: t)).head? = some (b ++ c) := by
  cases t with
  | nil => exact Or.inl rfl
  | cons c t' =>
    by_cases hp : spacedPair b c = true
    · refine Or.inr ⟨c, t', rfl, hp, ?_⟩
      simp only [spacedSub]
      rw [if_pos hp]
      rfl
    · left
      simp only [spacedSub]
      rw [if_neg hp]
      rfl

/-- Unpacking a spaced-pair match into its two conjuncts. -/
theorem spacedPair_split {a b : List Char} (h : spacedPair a b = true) :
    endsSingleLetter a = true ∧ upperWord5 b = true := by
  simpa [spacedPair, Bool.and_eq_true] using h

/-- The substitution pass never creates a new adjacent pair of single
uppercase letters. -/
theorem spacedSub_noAdj : ∀ l, noAdjSingles l → noAdjSingles (spacedSub l) := by
  intro l
  induction l using spacedSub.induct with
  | case1 => intro h; exact h
  | case2 w => intro h; exact h
  | case3 a b t hp ih =>
    intro h
    rw [show spacedSub (a :: b :: t) = (a ++ b) :: spacedSub t from by
      simp only [spacedSub]; rw [if_pos hp]]
    refine List.chain'_cons'.mpr ⟨?_, ih h.tail.tail⟩
    intro y _ hc
    have hb5 : upperWord5 b = true := (spacedPair_split hp).2
    have hlen : (a ++ b).length ≠ 1 := by
      unfold upperWord5 at hb5
      simp only [Bool.and_eq_true, decide_eq_true_eq] at hb5
      rw [List.length_append]
      omega
    rw [singleUpper_false_of_len (a ++ b) hlen] at hc
    cases hc.1
  | case4 a b t hp ih =>
    intro h
    rw [show spacedSub (a :: b :: t) = a :: spacedSub (b :: t) from by
      simp only [spacedSub]; rw [if_neg hp]]
    refine List.chain'_cons'.mpr ⟨?_, ih h.tail⟩
    intro y hy hc
    rcases spacedSub_head b t with hh | ⟨c, t', ht', hpc, hh⟩
    · rw [hh] at hy
      simp only [Option.mem_some_iff] at hy
      subst hy
      exact (List.chain'_cons'.mp h).1 b (by simp) hc
    · rw [hh] at hy
      simp only [Option.mem_some_iff] at hy
      subst hy
      have hc5 : upperWord5 c = true := (spacedPair_split hpc).2
      have hlen : (b ++ c).length ≠ 1 := by
        unfold upperWord5 at hc5
        simp only [Bool.and_eq_true, decide_eq_true_eq] at hc5
        rw [List.length_append]
        omega
      rw [singleUpper_false_of_len (b ++ c) hlen] at hc
      cases hc.2

/-- After one substitution pass over a merge-loop output no spaced-pair
match remains: replacements never end in a boundary single letter, a kept
word was already checked against its (possibly merged) successor, and the
one new pattern a merge could create would need two adjacent single letters,
which the merge loop has ruled out. -/
theorem spacedSub_noMatch :
    ∀ l, noAdjSingles l → goodToks l → noSpacedMatch (spacedSub l) := by
  intro l
  induction l using spacedSub.induct with
  | case1 => intro _ _; exact List.chain'_nil
  | case2 w => intro _ _; exact List.chain'_singleton w
  | case3 a b t hp ih =>
    intro hadj hg
    rw [show spacedSub (a :: b :: t) = (a ++ b) :: spacedSub t from by
      simp only [spacedSub]; rw [if_pos hp]]
    refine List.chain'_cons'.mpr ⟨?_, ih hadj.tail.tail (fun u hu =>
      hg u (List.mem_cons_of_mem a (List.mem_cons_of_mem b hu)))⟩
    intro y _
    have hb5 : upperWord5 b = true := (spacedPair_split hp).2
    unfold spacedPair
    rw [endsSingle_append_upper5 a b hb5]
    rfl
  | case4 a b t hp ih =>
    intro hadj hg
    rw [show spacedSub (a :: b :: t) = a :: spacedSub (b :: t) from by
      simp only [spacedSub]; rw [if_neg hp]]
    refine List.chain'_cons'.mpr
      ⟨?_, ih hadj.tail (fun u hu => hg u (List.mem_cons_of_mem a hu))⟩
    intro y hy
    rcases spacedSub_head b t with hh | ⟨c, t', ht', hpc, hh⟩
    · rw [hh] at hy
      simp only [Option.mem_some_iff] at hy
      subst hy
      cases hx : spacedPair a b
      · rfl
      · exact absurd hx hp
    · rw [hh] at hy
      simp only [Option.mem_some_iff] at hy
      subst hy
      cases hx : spacedPair a (b ++ c)
      · rfl
      · exfalso
        have h1 := spacedPair_split hx
        have hbc5 := h1.2
        unfold upperWord5 at hbc5
        simp only [Bool.and_eq_true, decide_eq_true_eq, List.all_eq_true] at hbc5
        have hballup : ∀ d ∈ b, isUpperAZ d = true :=
          fun d hd => hbc5.2 d (List.mem_append.mpr (Or.inl hd))
        have hbne : b ≠ [] := (hg b (by simp)).1
        have hendsb : endsSingleLetter b = true := (spacedPair_split hpc).1
        have hsub : singleUpper b = true :=
          endsSingle_upper_single b hballup hbne hendsb
        have hsua : singleUpper a = true :=
          endsSingle_single a (hg a (by simp)) h1.1
        exact (List.chain'_cons'.mp hadj).1 b (by simp) ⟨hsua, hsub⟩

/-- Without a remaining spaced-pair match the substitution pass is the
identity. -/
theorem spacedSub_id : ∀ l, noSpacedMatch l → spacedSub l = l := by
  intro l
  induction l using spacedSub.induct with
  | case1 => intro _; rfl
  | case2 w => intro _; rfl
  | case3 a b t hp ih =>
    intro h
    exfalso
    have h2 := (List.chain'_cons'.mp h).1 b (by simp)
    rw [hp] at h2
    cases h2
  | case4 a b t hp ih =>
    intro h
    simp only [spacedSub]
    rw [if_neg hp, ih h.tail]

/-- C7 amended: `clean_spaced_text` is idempotent on every input built from
word characters (letters, digits, underscore) and whitespace only.  On such
inputs a second application changes nothing: tokenising the repaired text
recovers its words, the merge loop finds no adjacent single letters, and the
substitution pass finds no remaining spaced pair.  (With punctuation the
function need not be idempotent — see the counterexample.) -/
theorem c7_amended_idempotent_on_word_chars (x : String)
    (h : ∀ c ∈ x.data, isWordChar c = true ∨ isSpaceC c = true) :
    clean_spaced_text (clean_spaced_text x) = clean_spaced_text x := by
  by_cases hx : x = ""
  · subst hx; rfl
  · have hg0 : goodToks (tokens x.data) := tokens_goodTok x.data h
    have hgm : goodToks (mergeAux none (tokens x.data)) :=
      mergeAux_goodTok (tokens x.data) none hg0 (fun acc n heq => by cases heq)
    have hadjm : noAdjSingles (mergeAux none (tokens x.data)) :=
      mergeAux_noAdj (tokens x.data) none (fun acc n heq => by cases heq)
    have hgout : goodToks (spacedSub (mergeAux none (tokens x.data))) :=
      spacedSub_goodTok _ hgm
    have hadjout : noAdjSingles (spacedSub (mergeAux none (tokens x.data))) :=
      spacedSub_noAdj _ hadjm
    have hnm : noSpacedMatch (spacedSub (mergeAux none (tokens x.data))) :=
      spacedSub_noMatch _ hadjm hgm
    have hfx : clean_spaced_text x
        = String.mk (joinSp (spacedSub (mergeAux none (tokens x.data)))) := by
      unfold clean_spaced_text
      rw [if_neg hx]
      rfl
    rw [hfx]
    unfold clean_spaced_text
    split
    · rfl
    · show String.mk (joinSp (spacedSub (mergeAux none (tokens
          (String.mk (joinSp (spacedSub (mergeAux none (tokens x.data))))).data))))
        = String.mk (joinSp (spacedSub (mergeAux none (tokens x.data))))
      rw [show (String.mk (joinSp (spacedSub (mergeAux none (tokens x.data))))).data
          = joinSp (spacedSub (mergeAux none (tokens x.data))) from rfl]
      rw [tokens_joinSp _ hgout, mergeAux_id _ hadjout, spacedSub_id _ hnm]

/-- Witness for the amended C7 at the specification's name-repair example. -/
theorem c7_witness :
    (∀ c ∈ ("B A R N ER DAVID W" : String).data,
      isWordChar c = true ∨ isSpaceC c = true) ∧
    clean_spaced_text (clean_spaced_text "B A R N ER DAVID W")
      = clean_spaced_text "B A R N ER DAVID W" :=
  ⟨by decide, c7_amended_idempotent_on_word_chars "B A R N ER DAVID W" (by decide)⟩

end UniversalParser
